import Mathlib

/-!
Verification of the CircuitCLI Transaction Intelligence Engine.

This file gives a shallow embedding, in Lean 4, of the parts of the
CircuitCLI repository that the specification's claims concern:

* `normalize_vendor`, `_classify_frequency`, `_score_confidence`,
  `SubscriptionService.detect_subscriptions` and
  `SubscriptionService.confirm_detected`
  (src/circuitai/services/subscription_service.py);
* `compute_txn_fingerprint` and `CaptureService.import_transactions`
  (src/circuitai/services/capture_service.py);
* the dedup step of the CSV and PDF import adapters
  (src/circuitai/adapters/builtin/csv_import.py, pdf_import.py);
* `StatementLinker` (src/circuitai/services/statement_linker.py).

Modelling conventions:

* Python `str` values are embedded as `List Char` (`PyStr`); `str.upper`,
  `str.strip`, `str.split` are modelled at ASCII fidelity (the repository
  only ever feeds ASCII boilerplate, ISO dates and bank descriptions
  through these paths).
* Python `float` arithmetic in the match scores and confidence
  computation is embedded as exact rational arithmetic over `ℚ`;
  `int(x)` truncation is `Int.floor` on the (non-negative) values that
  occur, with the one negative-value site clamped by `max 0` exactly as
  in the source.
* SQLite rows become records; the database becomes an explicit `Store`
  state threaded through the operations.
* Fallible code (Python exceptions) returns `Option`; the store of
  `date.fromisoformat` is modelled for the canonical dashed
  `YYYY-MM-DD` form, the only form the system writes.
-/

namespace CircuitCLI

/-- Python strings are embedded as lists of characters. -/
abbrev PyStr := List Char

/-- The ASCII whitespace characters recognised by Python's `str.strip()` /
`str.split()` (space, tab, newline, carriage return, vertical tab, form feed). -/
def isPySpace (c : Char) : Bool :=
  c == ' ' || c == '\t' || c == '\n' || c == '\r' || c == '\x0b' || c == '\x0c'

/-- Python `str.strip()`: remove leading and trailing whitespace. -/
def pyStrip (s : PyStr) : PyStr :=
  ((s.dropWhile isPySpace).reverse.dropWhile isPySpace).reverse

/-- Python `str.upper()` restricted to ASCII (`Char.toUpper` maps `a`-`z`
to `A`-`Z` and fixes everything else). -/
def pyUpper (s : PyStr) : PyStr :=
  s.map Char.toUpper

/-- Helper for Python `str.split()`: accumulate the current word (reversed
in `acc`) while scanning the string. -/
def pyWordsAux : PyStr → PyStr → List PyStr
  | [], acc => if acc.isEmpty then [] else [acc.reverse]
  | c :: cs, acc =>
    if isPySpace c then
      if acc.isEmpty then pyWordsAux cs [] else acc.reverse :: pyWordsAux cs []
    else
      pyWordsAux cs (c :: acc)

/-- Python `str.split()` with no argument: split on runs of whitespace,
discarding empty pieces. -/
def pyWords (s : PyStr) : List PyStr := pyWordsAux s []

/-- Python `" ".join(ws)`. -/
def joinSpace : List PyStr → PyStr
  | [] => []
  | [w] => w
  | w :: ws => w ++ ' ' :: joinSpace ws

/-- Python `" ".join(s.split())` — collapse internal whitespace runs to a
single space and trim the ends. -/
def pyCollapse (s : PyStr) : PyStr := joinSpace (pyWords s)

/-! ## Vendor normalisation (subscription_service.py, `normalize_vendor`) -/

/-- The `_STRIP_PREFIXES` list of subscription_service.py after its
`sorted(..., key=len, reverse=True)` call (Python's sort is stable, so
entries of equal length keep their original relative order). -/
def stripBoilerplateList : List PyStr :=
  [ "DEBIT CARD PURCHASE".data
  , "AUTOMATIC PAYMENT".data
  , "RECURRING PAYMENT".data
  , "ONLINE PURCHASE".data
  , "ONLINE PAYMENT".data
  , "BILL PAYMENT".data
  , "ACH PAYMENT".data
  , "ACH CREDIT".data
  , "MASTERCARD".data
  , "ACH DEBIT".data
  , "POS DEBIT".data
  , "VISA".data ]

/-- The boilerplate-stripping loop of `normalize_vendor`: strip the first
matching entry of `stripBoilerplateList` (and then `strip()` the result),
leaving the string unchanged when no entry matches. -/
def stripBoilerplate (t : PyStr) : PyStr :=
  match stripBoilerplateList.find? (fun p => p.isPrefixOf t) with
  | some p => pyStrip (t.drop p.length)
  | none => t

/-- The substitution `re.sub(r"\s*\d{6,}$", "", t)`: when the string ends in
a run of six or more digits, remove that run together with the whitespace
run immediately before it. -/
def stripTrailingRef (t : PyStr) : PyStr :=
  let r := t.reverse
  if 6 ≤ (r.takeWhile Char.isDigit).length then
    ((r.dropWhile Char.isDigit).dropWhile isPySpace).reverse
  else t

/-- The substitution `re.sub(r"\s*\d{2}/\d{2}$", "", t)`: when the string
ends in `DD/DD` (digits), remove those five characters together with the
whitespace run immediately before them. -/
def stripTrailingDate (t : PyStr) : PyStr :=
  match t.reverse with
  | d2 :: d1 :: sl :: m2 :: m1 :: rest =>
    if d2.isDigit && d1.isDigit && sl == '/' && m2.isDigit && m1.isDigit then
      (rest.dropWhile isPySpace).reverse
    else t
  | _ => t

/-- The function `normalize_vendor` of subscription_service.py:
`strip().upper()`, strip the first matching boilerplate entry, strip a
trailing reference number, strip a trailing `MM/DD`, collapse whitespace. -/
def normalize_vendor (s : PyStr) : PyStr :=
  pyCollapse (stripTrailingDate (stripTrailingRef (stripBoilerplate (pyUpper (pyStrip s)))))

/-! ## SHA-256 (the `hashlib.sha256` call of `compute_txn_fingerprint`),
implemented over `Nat` with explicit reduction modulo `2 ^ 32`. -/

/-- The modulus for 32-bit words. -/
def M32 : Nat := 4294967296

/-- Rotate a 32-bit word right by `n` bits. -/
def rotr32 (x n : Nat) : Nat := ((x >>> n) ||| (x <<< (32 - n))) % M32

/-- Bitwise complement of a 32-bit word. -/
def not32 (x : Nat) : Nat := 4294967295 ^^^ x

/-- SHA-256 message-schedule sigma-0. -/
def ssig0 (x : Nat) : Nat := (rotr32 x 7) ^^^ (rotr32 x 18) ^^^ (x >>> 3)

/-- SHA-256 message-schedule sigma-1. -/
def ssig1 (x : Nat) : Nat := (rotr32 x 17) ^^^ (rotr32 x 19) ^^^ (x >>> 10)

/-- SHA-256 compression Sigma-0. -/
def bsig0 (x : Nat) : Nat := (rotr32 x 2) ^^^ (rotr32 x 13) ^^^ (rotr32 x 22)

/-- SHA-256 compression Sigma-1. -/
def bsig1 (x : Nat) : Nat := (rotr32 x 6) ^^^ (rotr32 x 11) ^^^ (rotr32 x 25)

/-- The 64 SHA-256 round constants. -/
def shaK : List Nat :=
  [ 1116352408, 1899447441, 3049323471, 3921009573
  , 961987163, 1508970993, 2453635748, 2870763221
  , 3624381080, 310598401, 607225278, 1426881987
  , 1925078388, 2162078206, 2614888103, 3248222580
  , 3835390401, 4022224774, 264347078, 604807628
  , 770255983, 1249150122, 1555081692, 1996064986
  , 2554220882, 2821834349, 2952996808, 3210313671
  , 3336571891, 3584528711, 113926993, 338241895
  , 666307205, 773529912, 1294757372, 1396182291
  , 1695183700, 1986661051, 2177026350, 2456956037
  , 2730485921, 2820302411, 3259730800, 3345764771
  , 3516065817, 3600352804, 4094571909, 275423344
  , 430227734, 506948616, 659060556, 883997877
  , 958139571, 1322822218, 1537002063, 1747873779
  , 1955562222, 2024104815, 2227730452, 2361852424
  , 2428436474, 2756734187, 3204031479, 3329325298 ]

/-- The SHA-256 hash state: eight 32-bit words. -/
structure Digest where
  h0 : Nat
  h1 : Nat
  h2 : Nat
  h3 : Nat
  h4 : Nat
  h5 : Nat
  h6 : Nat
  h7 : Nat

/-- The SHA-256 initial hash value. -/
def initDigest : Digest :=
  ⟨1779033703, 3144134277, 1013904242, 2773480762,
   1359893119, 2600822924, 528734635, 1541459225⟩

/-- Extend the (reversed) message schedule by `k` further words. -/
def extendSchedule : Nat → List Nat → List Nat
  | 0, rev => rev
  | k + 1, rev =>
    extendSchedule k
      ((ssig1 (rev.getD 1 0) + rev.getD 6 0 + ssig0 (rev.getD 14 0) + rev.getD 15 0) % M32 :: rev)

/-- The full 64-word message schedule of one block. -/
def schedule (block : List Nat) : List Nat :=
  (extendSchedule 48 block.reverse).reverse

/-- One SHA-256 compression round: the working variables are
`(a, b, c, d, e, f, g, h)` packed into a `Digest`. -/
def shaRound (kw : Nat × Nat) (v : Digest) : Digest :=
  let t1 := (v.h7 + bsig1 v.h4 + ((v.h4 &&& v.h5) ^^^ (not32 v.h4 &&& v.h6)) + kw.1 + kw.2) % M32
  let t2 := (bsig0 v.h0 + ((v.h0 &&& v.h1) ^^^ (v.h0 &&& v.h2) ^^^ (v.h1 &&& v.h2))) % M32
  ⟨(t1 + t2) % M32, v.h0, v.h1, v.h2, (v.h3 + t1) % M32, v.h4, v.h5, v.h6⟩

/-- Process one 16-word block, updating the hash state. -/
def processBlock (st : Digest) (block : List Nat) : Digest :=
  let w := schedule block
  let v := (shaK.zip w).foldl (fun v kw => shaRound kw v) st
  ⟨(st.h0 + v.h0) % M32, (st.h1 + v.h1) % M32, (st.h2 + v.h2) % M32, (st.h3 + v.h3) % M32,
   (st.h4 + v.h4) % M32, (st.h5 + v.h5) % M32, (st.h6 + v.h6) % M32, (st.h7 + v.h7) % M32⟩

/-- Big-endian bytes of a 64-bit length value. -/
def beBytes8 (n : Nat) : List Nat :=
  (List.range 8).map (fun i => (n >>> (8 * (7 - i))) % 256)

/-- SHA-256 padding: append `0x80`, zero bytes up to 56 mod 64, then the
bit length as eight big-endian bytes. -/
def shaPad (msg : List Nat) : List Nat :=
  let L := msg.length
  let k := (119 - (L % 64)) % 64
  msg ++ 0x80 :: List.replicate k 0 ++ beBytes8 (8 * L)

/-- Collect four bytes into one big-endian 32-bit word, repeatedly. -/
def toWords : List Nat → List Nat
  | b0 :: b1 :: b2 :: b3 :: rest => (((b0 * 256 + b1) * 256 + b2) * 256 + b3) :: toWords rest
  | _ => []

/-- Split a byte list into 16-word blocks (`fuel` bounds the recursion; it is
called with the list length, which suffices since each step consumes 64 bytes). -/
def chunkBlocks : Nat → List Nat → List (List Nat)
  | 0, _ => []
  | _ + 1, [] => []
  | fuel + 1, bs => toWords (bs.take 64) :: chunkBlocks fuel (bs.drop 64)

/-- SHA-256 of a byte string, as the final hash state. -/
def sha256 (msg : List Nat) : Digest :=
  let padded := shaPad msg
  (chunkBlocks padded.length padded).foldl processBlock initDigest

/-- The lowercase hexadecimal digits, in value order. -/
def hexDigits : PyStr := "0123456789abcdef".data

/-- The lowercase hex digit of a nibble. -/
def hexDigit (n : Nat) : Char := hexDigits.getD (n % 16) '0'

/-- Eight lowercase hex characters of one 32-bit word (most significant first). -/
def toHex8 (n : Nat) : PyStr :=
  (List.range 8).map (fun i => hexDigit ((n >>> (4 * (7 - i)))))

/-- The eight words of the hash state, in output order. -/
def digestWords (d : Digest) : List Nat :=
  [d.h0, d.h1, d.h2, d.h3, d.h4, d.h5, d.h6, d.h7]

/-- Python `hashlib.sha256(bytes).hexdigest()`: 64 lowercase hex characters. -/
def sha256hex (msg : List Nat) : PyStr :=
  ((digestWords (sha256 msg)).map toHex8).flatten

/-- UTF-8 encoding of one character (Python `str.encode()`). -/
def utf8Char (c : Char) : List Nat :=
  let n := c.toNat
  if n < 0x80 then [n]
  else if n < 0x800 then [0xC0 ||| (n >>> 6), 0x80 ||| (n &&& 0x3F)]
  else if n < 0x10000 then
    [0xE0 ||| (n >>> 12), 0x80 ||| ((n >>> 6) &&& 0x3F), 0x80 ||| (n &&& 0x3F)]
  else
    [0xF0 ||| (n >>> 18), 0x80 ||| ((n >>> 12) &&& 0x3F), 0x80 ||| ((n >>> 6) &&& 0x3F),
     0x80 ||| (n &&& 0x3F)]

/-- UTF-8 encoding of a string (Python `str.encode()`). -/
def utf8Encode (s : PyStr) : List Nat := (s.map utf8Char).flatten

/-- Python `str(i)` for an integer. -/
def intStr (i : Int) : PyStr :=
  if i < 0 then '-' :: Nat.toDigits 10 i.natAbs else Nat.toDigits 10 i.toNat

/-- The description normalisation of `compute_txn_fingerprint`:
`re.sub(r"[^A-Z0-9]", "", description.upper())`. -/
def fpNormalize (desc : PyStr) : PyStr :=
  (pyUpper desc).filter (fun c => ('A' ≤ c && c ≤ 'Z') || ('0' ≤ c && c ≤ '9'))

/-- The function `compute_txn_fingerprint` of capture_service.py: SHA-256 of
`date|normalizedDescription|amount`, truncated to the first 16 hex characters. -/
def compute_txn_fingerprint (txn_date description : PyStr) (amount_cents : Int) : PyStr :=
  (sha256hex (utf8Encode (txn_date ++ '|' :: (fpNormalize description ++ '|' :: intStr amount_cents)))).take 16

/-! ## Dates (`datetime.date`, `calendar.monthrange`) -/

/-- A calendar date. -/
structure PyDate where
  year : Nat
  month : Nat
  day : Nat
deriving DecidableEq, Repr

/-- Gregorian leap-year test (`calendar.isleap`). -/
def isLeapYear (y : Nat) : Bool :=
  (y % 4 == 0 && y % 100 != 0) || y % 400 == 0

/-- Number of days in a month (`calendar.monthrange(y, m)[1]` for valid `m`). -/
def daysInMonth (y m : Nat) : Nat :=
  if m = 2 then (if isLeapYear y then 29 else 28)
  else if m = 4 ∨ m = 6 ∨ m = 9 ∨ m = 11 then 30
  else 31

/-- Numeric value of an ASCII digit character. -/
def digitVal (c : Char) : Nat := c.toNat - 48

/-- Python `date.fromisoformat`, modelled for the canonical dashed
`YYYY-MM-DD` form (the only form this system writes); malformed input
(`ValueError` in Python) becomes `none`. Python restricts years to 1-9999. -/
def parseIsoDate (s : PyStr) : Option PyDate :=
  match s with
  | [y1, y2, y3, y4, s1, m1, m2, s2, d1, d2] =>
    if y1.isDigit && y2.isDigit && y3.isDigit && y4.isDigit && s1 == '-' &&
       m1.isDigit && m2.isDigit && s2 == '-' && d1.isDigit && d2.isDigit then
      let y := ((digitVal y1 * 10 + digitVal y2) * 10 + digitVal y3) * 10 + digitVal y4
      let m := digitVal m1 * 10 + digitVal m2
      let d := digitVal d1 * 10 + digitVal d2
      if 1 ≤ y ∧ 1 ≤ m ∧ m ≤ 12 ∧ 1 ≤ d ∧ d ≤ daysInMonth y m then
        some ⟨y, m, d⟩
      else none
    else none
  | _ => none

/-- Days from the start of the proleptic Gregorian calendar to January 1 of
year `y` (as in `date.toordinal`). -/
def daysBeforeYear (y : Nat) : Nat :=
  let n := y - 1
  365 * n + n / 4 - n / 100 + n / 400

/-- Days in year `y` before the first of month `m`. -/
def daysBeforeMonth (y m : Nat) : Nat :=
  ((List.range (m - 1)).map (fun i => daysInMonth y (i + 1))).sum

/-- Python `date.toordinal`: day number with 0001-01-01 as day 1; date
subtraction `(a - b).days` is the difference of ordinals. -/
def toOrdinal (d : PyDate) : Nat :=
  daysBeforeYear d.year + daysBeforeMonth d.year d.month + d.day

/-- The day after a date. -/
def nextDay (d : PyDate) : PyDate :=
  if d.day < daysInMonth d.year d.month then ⟨d.year, d.month, d.day + 1⟩
  else if d.month < 12 then ⟨d.year, d.month + 1, 1⟩
  else ⟨d.year + 1, 1, 1⟩

/-- The day before a date. -/
def prevDay (d : PyDate) : PyDate :=
  if 1 < d.day then ⟨d.year, d.month, d.day - 1⟩
  else if 1 < d.month then ⟨d.year, d.month - 1, daysInMonth d.year (d.month - 1)⟩
  else ⟨d.year - 1, 12, 31⟩

/-- Python `d + timedelta(days := n)` for `n ≥ 0`. -/
def addDays (d : PyDate) : Nat → PyDate
  | 0 => d
  | n + 1 => addDays (nextDay d) n

/-- Python `d - timedelta(days := n)` for `n ≥ 0`. -/
def subDays (d : PyDate) : Nat → PyDate
  | 0 => d
  | n + 1 => subDays (prevDay d) n

/-- Decimal digits of a natural number, two characters with a leading zero. -/
def pad2 (n : Nat) : PyStr :=
  if n < 10 then '0' :: Nat.toDigits 10 n else Nat.toDigits 10 n

/-- Decimal digits of a natural number, four characters with leading zeros. -/
def pad4 (n : Nat) : PyStr :=
  if n < 10 then '0' :: '0' :: '0' :: Nat.toDigits 10 n
  else if n < 100 then '0' :: '0' :: Nat.toDigits 10 n
  else if n < 1000 then '0' :: Nat.toDigits 10 n
  else Nat.toDigits 10 n

/-- Python `date.isoformat()`: `YYYY-MM-DD`. -/
def isoFormat (d : PyDate) : PyStr :=
  pad4 d.year ++ '-' :: pad2 d.month ++ '-' :: pad2 d.day

/-! ## Data model: SQLite rows become records, the database becomes a `Store` -/

/-- An `account_transactions` row (fields this engine reads or writes;
`NULL` amounts collapse to `0`, matching SQLite falsiness under Python). -/
structure Txn where
  id : PyStr
  accountId : PyStr
  description : PyStr
  amountCents : Int
  transactionDate : PyStr
  isMatched : Bool
  linkedBillId : Option PyStr
  fingerprint : Option PyStr
deriving DecidableEq, Repr

/-- A `card_transactions` row. -/
structure CardTxn where
  id : PyStr
  cardId : PyStr
  description : PyStr
  amountCents : Int
  transactionDate : PyStr
  fingerprint : Option PyStr
deriving DecidableEq, Repr

/-- A `bills` row; `matchPatterns` is the JSON-decoded `match_patterns`
column (`json.loads(...) if ... else []` collapses NULL/empty to `[]`). -/
structure Bill where
  id : PyStr
  name : PyStr
  matchPatterns : List PyStr
  amountCents : Int
  dueDay : Option Int
  isActive : Bool
deriving DecidableEq, Repr

/-- A `subscriptions` row (the fields the detection pipeline reads or writes). -/
structure Subscription where
  name : PyStr
  provider : PyStr
  amountCents : Int
  frequency : PyStr
  category : PyStr
  status : PyStr
  nextChargeDate : Option PyStr
  lastChargeDate : Option PyStr
  firstDetected : Option PyStr
  confidence : Int
  matchPattern : PyStr
  source : PyStr
  isActive : Bool
deriving DecidableEq, Repr

/-- The database state: the four tables, rows in insertion order (SQLite
returns them in rowid order for the engine's unordered SELECTs). -/
structure Store where
  acctTxns : List Txn
  cardTxns : List CardTxn
  bills : List Bill
  subs : List Subscription
deriving DecidableEq, Repr

/-! ## Generic helpers (substring test, lexicographic order, stable sort) -/

/-- Python's substring test `pat in s`. -/
def isSubstring (pat : PyStr) : PyStr → Bool
  | [] => pat.isEmpty
  | c :: rest => pat.isPrefixOf (c :: rest) || isSubstring pat rest

/-- Byte-lexicographic string comparison `a ≤ b`, as SQLite's BINARY
collation and Python's `str` comparison give on ASCII text. -/
def pyStrLe : PyStr → PyStr → Bool
  | [], _ => true
  | _ :: _, [] => false
  | a :: as_, b :: bs =>
    if a.toNat < b.toNat then true
    else if b.toNat < a.toNat then false
    else pyStrLe as_ bs

/-- Insert into a sorted list, before the first element `y` with `le x y`;
used to build a stable sort (Python `list.sort` is stable). -/
def insertBy (le : α → α → Bool) (x : α) : List α → List α
  | [] => [x]
  | y :: ys => if le x y then x :: y :: ys else y :: insertBy le x ys

/-- Stable insertion sort: elements are inserted from the left, each before
the first existing element it compares `le` to, so equal elements keep
their original relative order, as Python's `list.sort`/`sorted` guarantee. -/
def sortBy (le : α → α → Bool) : List α → List α
  | [] => []
  | x :: xs => insertBy le x (sortBy le xs)

/-! ## Statement linker (statement_linker.py)

Python float arithmetic in the scores is embedded as exact `ℚ`
arithmetic; `amount_tolerance_cents` and `date_window_days` are the
constructor parameters (defaults 500 and 7). -/

/-- The description signal of `_score_match` (weight 0.5): 0.5 is added
once if any bill pattern, uppercased, occurs in the uppercased
transaction description (the loop breaks after the first hit). -/
def descScore (txn : Txn) (bill : Bill) : ℚ :=
  if bill.matchPatterns.any (fun p => isSubstring (pyUpper p) (pyUpper txn.description)) then
    1/2
  else 0

/-- The amount signal of `_score_match` (weight 0.3): guarded by Python
truthiness of both amounts; full credit at zero difference, linear
falloff to the tolerance. -/
def amountScore (tol : Int) (txn : Txn) (bill : Bill) : ℚ :=
  if bill.amountCents ≠ 0 ∧ txn.amountCents ≠ 0 then
    let diff : Int := |(|txn.amountCents|) - bill.amountCents|
    if diff = 0 then 3/10
    else if diff ≤ tol then (3/10) * (1 - (diff : ℚ) / (tol : ℚ))
    else 0
  else 0

/-- The function `_date_proximity_score`: the `try` body returns `none` at
each site where Python raises `ValueError` (unparseable date, or
`date.replace` with a day below 1 when `due_day ≤ 0`), and the
`except (ValueError, TypeError)` handler turns that into `0.0`. -/
def dateProximityTry (window : Int) (txn_date_str : PyStr) (due_day : Int) : Option ℚ :=
  match parseIsoDate (txn_date_str.take 10) with
  | none => none
  | some dt =>
    let last_day : Int := (daysInMonth dt.year dt.month : Int)
    let expected : Int := min due_day last_day
    if expected < 1 then none
    else
      let diff_days : Int := |(dt.day : Int) - expected|
      if diff_days = 0 then some (1/5)
      else if diff_days ≤ window then some ((1/5) * (1 - (diff_days : ℚ) / (window : ℚ)))
      else some 0

/-- The function `_date_proximity_score` of statement_linker.py with its
exception handler: any failure in the `try` body yields `0.0`. -/
def date_proximity_score (window : Int) (txn_date_str : PyStr) (due_day : Int) : ℚ :=
  (dateProximityTry window txn_date_str due_day).getD 0

/-- The date signal of `_score_match` (weight 0.2): guarded by Python
truthiness of `bill["due_day"]` and `txn["transaction_date"]`. -/
def dateScore (window : Int) (txn : Txn) (bill : Bill) : ℚ :=
  match bill.dueDay with
  | some d => if d ≠ 0 ∧ txn.transactionDate ≠ [] then
      date_proximity_score window txn.transactionDate d
    else 0
  | none => 0

/-- The function `_score_match` of statement_linker.py: sum of the three
signals. -/
def score_match (tol window : Int) (txn : Txn) (bill : Bill) : ℚ :=
  descScore txn bill + amountScore tol txn bill + dateScore window txn bill

/-- The scanning loop of `_find_best_match`: running best
`(best_id, best_score)`, replaced when a bill scores strictly higher than
the running best and at least 0.4. -/
def fbmLoop (tol window : Int) (txn : Txn) : List Bill → Option PyStr × ℚ → Option PyStr × ℚ
  | [], best => best
  | b :: bs, best =>
    let s := score_match tol window txn b
    fbmLoop tol window txn bs (if s > best.2 ∧ s ≥ 2/5 then (some b.id, s) else best)

/-- The function `_find_best_match` of statement_linker.py. The final
`if best_id:` is Python truthiness, so an empty-string bill id also
yields `None`. -/
def find_best_match (tol window : Int) (txn : Txn) (bills : List Bill) : Option (PyStr × ℚ) :=
  match fbmLoop tol window txn bills (none, 0) with
  | (some id, s) => if id.isEmpty then none else some (id, s)
  | (none, _) => none

/-- The bills scan of `link_transactions`:
`SELECT ... FROM bills WHERE is_active = 1`. -/
def activeBills (st : Store) : List Bill := st.bills.filter (·.isActive)

/-- The unmatched-transactions scan of `link_transactions`:
`is_matched = 0`, optionally restricted to one account (the account filter
is applied under Python truthiness of `account_id`). -/
def unmatchedScan (st : Store) (account_id : Option PyStr) : List Txn :=
  st.acctTxns.filter (fun t =>
    !t.isMatched &&
      match account_id with
      | some a => a.isEmpty || t.accountId == a
      | none => true)

/-- The `UPDATE account_transactions SET is_matched = 1, linked_bill_id = ?
WHERE id = ?` statement. -/
def markMatched (bill_id txn_id : PyStr) (txns : List Txn) : List Txn :=
  txns.map (fun t =>
    if t.id == txn_id then { t with isMatched := true, linkedBillId := some bill_id } else t)

/-- One recorded match of `link_transactions`:
`(transaction_id, bill_id, description, score)`. -/
structure MatchEntry where
  transactionId : PyStr
  billId : PyStr
  description : PyStr
  score : ℚ
deriving DecidableEq

/-- The summary returned by `link_transactions`. -/
structure LinkResult where
  totalUnmatched : Nat
  matched : Nat
  matchList : List MatchEntry
deriving DecidableEq

/-- The per-transaction step of the `link_transactions` loop. -/
def linkStep (tol window : Int) (bills : List Bill) (acc : Store × List MatchEntry) (txn : Txn) :
    Store × List MatchEntry :=
  match find_best_match tol window txn bills with
  | some (bill_id, s) =>
    ({ acc.1 with acctTxns := markMatched bill_id txn.id acc.1.acctTxns },
     acc.2 ++ [⟨txn.id, bill_id, txn.description, s⟩])
  | none => acc

/-- The method `StatementLinker.link_transactions`: scan bills and
unmatched transactions once, then mark each transaction that has a best
match; returns the updated store and the summary. -/
def link_transactions (tol window : Int) (account_id : Option PyStr) (st : Store) :
    Store × LinkResult :=
  let bills := activeBills st
  let un := unmatchedScan st account_id
  let fin := un.foldl (linkStep tol window bills) (st, [])
  (fin.1, ⟨un.length, fin.2.length, fin.2⟩)

/-- The stop-word set of `learn_pattern`. -/
def stopWords : List PyStr :=
  [ "PAYMENT".data, "TO".data, "FROM".data, "FOR".data, "THE".data
  , "ACH".data, "DEBIT".data, "CREDIT".data, "ONLINE".data ]

/-- The method `StatementLinker.learn_pattern`: silently returns when the
bill id is unknown; otherwise takes the first three non-stop-word tokens of
the uppercased description and appends them as one pattern unless already
present. -/
def learn_pattern (bill_id description : PyStr) (st : Store) : Store :=
  match st.bills.find? (fun b => b.id == bill_id) with
  | none => st
  | some bill =>
    let meaningful := (pyWords (pyUpper description)).filter (fun w => !stopWords.contains w)
    if meaningful.isEmpty then st
    else
      let new_pattern := joinSpace (meaningful.take 3)
      if new_pattern ∈ bill.matchPatterns then st
      else
        { st with bills := st.bills.map (fun b =>
            if b.id == bill_id then { b with matchPatterns := b.matchPatterns ++ [new_pattern] }
            else b) }

/-- The exceptions of `circuitai.core.exceptions` relevant to
`confirm_match`: `NotFoundError`, and `DatabaseError`, which
`Database.execute` raises around any `sqlite3` error
(database.py:65-70). -/
inductive LinkerError where
  | notFound : LinkerError
  | databaseError : LinkerError
deriving DecidableEq, Repr

/-- The method `StatementLinker.confirm_match`: fetch the transaction's
description; if no row matches, return silently. Otherwise run
`UPDATE account_transactions SET is_matched = 1, linked_bill_id = ?
WHERE id = ?`: the connection sets `PRAGMA foreign_keys = ON`
(database.py:47) and the table declares
`FOREIGN KEY (linked_bill_id) REFERENCES bills(id)` (migrations.py:78),
so when `bill_id` matches no row of `bills` the `UPDATE` raises
`sqlite3.IntegrityError`, which `db.execute` surfaces as `DatabaseError`
with no row changed; when the bill exists, the transaction is marked
matched and linked, the change is committed, and `learn_pattern` runs. -/
def confirm_match (transaction_id bill_id : PyStr) (st : Store) :
    Except LinkerError Store :=
  match st.acctTxns.find? (fun t => t.id == transaction_id) with
  | none => Except.ok st
  | some txn =>
    if st.bills.any (fun b => b.id == bill_id) then
      Except.ok (learn_pattern bill_id txn.description
        { st with acctTxns := markMatched bill_id transaction_id st.acctTxns })
    else Except.error LinkerError.databaseError

/-! ## Import paths and their dedup checks (capture_service.py,
csv_import.py, pdf_import.py) -/

/-- One transaction dict extracted by the vision call, after the field
accesses `txn.get("date", "")`, `txn.get("description", "")`,
`int(txn.get("amount_cents", 0))` and `txn.get("category", "")` of
`import_transactions` (the `int()` conversion is modelled as already
performed; its failure path is outside the claims). -/
structure ExtractedTxn where
  date : PyStr
  description : PyStr
  amountCents : Int
  category : PyStr
deriving DecidableEq, Repr

/-- Whether some `account_transactions` row carries the given fingerprint
(`SELECT id FROM account_transactions WHERE txn_fingerprint = ?`). -/
def fingerprintInAcct (st : Store) (fp : PyStr) : Bool :=
  st.acctTxns.any (fun t => t.fingerprint == some fp)

/-- Whether some `card_transactions` row carries the given fingerprint
(`SELECT id FROM card_transactions WHERE txn_fingerprint = ?`). -/
def fingerprintInCard (st : Store) (fp : PyStr) : Bool :=
  st.cardTxns.any (fun t => t.fingerprint == some fp)

/-- Outcome of one row of an import loop. -/
inductive RowOutcome
  | imported
  | skipped
  | errored
deriving DecidableEq, Repr

/-- One iteration of the `import_transactions` loop of capture_service.py:
missing date or description is an error row; then the computed fingerprint
is looked up in BOTH transaction tables and a hit in either is counted as
`skipped`; otherwise the row is inserted into the table selected by
`entity_type` (`account` or not). Row ids come from `new_id()`; the claims
do not depend on them, so the inserted id is left empty. -/
def captureImportStep (account_id : PyStr) (entityAccount : Bool) (st : Store)
    (txn : ExtractedTxn) : Store × RowOutcome :=
  if txn.date.isEmpty || txn.description.isEmpty then (st, .errored)
  else
    let fp := compute_txn_fingerprint txn.date txn.description txn.amountCents
    if fingerprintInAcct st fp || fingerprintInCard st fp then (st, .skipped)
    else if entityAccount then
      ({ st with acctTxns := st.acctTxns ++
          [⟨[], account_id, txn.description, txn.amountCents, txn.date, false, none, some fp⟩] },
       .imported)
    else
      ({ st with cardTxns := st.cardTxns ++
          [⟨[], account_id, txn.description, txn.amountCents, txn.date, some fp⟩] },
       .imported)

/-- The `import_transactions` loop of capture_service.py over a list of
extracted rows, returning the updated store and the `imported`/`skipped`
counters plus the number of error rows. -/
def capture_import (account_id : PyStr) (entityAccount : Bool) (st : Store)
    (txns : List ExtractedTxn) : Store × Nat × Nat × Nat :=
  txns.foldl
    (fun acc txn =>
      let (st2, o) := captureImportStep account_id entityAccount acc.1 txn
      (st2,
       acc.2.1 + (if o = .imported then 1 else 0),
       acc.2.2.1 + (if o = .skipped then 1 else 0),
       acc.2.2.2 + (if o = .errored then 1 else 0)))
    (st, 0, 0, 0)

/-- The dedup-and-insert step of one CSV row (csv_import.py): the
fingerprint is looked up ONLY in `account_transactions`; on a hit the row
is silently skipped (`continue`, no skip counter), otherwise it is
inserted into `account_transactions`. Returns the updated store and
whether the row was inserted. -/
def csvImportRow (account_id : PyStr) (st : Store) (txn_date description : PyStr)
    (amount_cents : Int) : Store × Bool :=
  let fp := compute_txn_fingerprint txn_date description amount_cents
  if fingerprintInAcct st fp then (st, false)
  else
    ({ st with acctTxns := st.acctTxns ++
        [⟨[], account_id, description, amount_cents, txn_date, false, none, some fp⟩] },
     true)

/-- The dedup-and-insert step of one PDF table row (pdf_import.py): the
same shape as the CSV step — the fingerprint is looked up ONLY in
`account_transactions`. -/
def pdfImportRow (account_id : PyStr) (st : Store) (txn_date description : PyStr)
    (amount_cents : Int) : Store × Bool :=
  let fp := compute_txn_fingerprint txn_date description amount_cents
  if fingerprintInAcct st fp then (st, false)
  else
    ({ st with acctTxns := st.acctTxns ++
        [⟨[], account_id, description, amount_cents, txn_date, false, none, some fp⟩] },
     true)

/-! ## Subscription detection (subscription_service.py) -/

/-- The `_FREQ_BUCKETS` dict, in insertion (= iteration) order. -/
def freqBuckets : List (PyStr × Int × Int) :=
  [ ("weekly".data, 5, 9)
  , ("monthly".data, 25, 35)
  , ("quarterly".data, 80, 100)
  , ("yearly".data, 350, 380) ]

/-- The `_FREQ_INTERVALS` dict lookup (total on the four frequency keys
that can reach it). -/
def freqIntervalDays (f : PyStr) : Nat :=
  if f = "weekly".data then 7
  else if f = "monthly".data then 30
  else if f = "quarterly".data then 90
  else 365

/-- The `_FREQ_BUCKETS[frequency]` lookup of `_score_confidence`. -/
def freqBucketOf (f : PyStr) : Int × Int :=
  if f = "weekly".data then (5, 9)
  else if f = "monthly".data then (25, 35)
  else if f = "quarterly".data then (80, 100)
  else (350, 380)

/-- The median expression `sorted(intervals)[len(intervals) // 2]` of
`_classify_frequency`: the upper-middle element of the sorted interval
list (the median for odd length). -/
def medianInterval (intervals : List Int) : Int :=
  (sortBy (fun a b => decide (a ≤ b)) intervals).getD (intervals.length / 2) 0

/-- The function `_classify_frequency` of subscription_service.py: `None`
on an empty list, otherwise the first frequency bucket whose inclusive day
range contains the median interval, or `None` when no bucket does. -/
def classify_frequency (intervals : List Int) : Option PyStr :=
  if intervals.isEmpty then none
  else
    match freqBuckets.find? (fun b =>
        decide (b.2.1 ≤ medianInterval intervals) && decide (medianInterval intervals ≤ b.2.2)) with
    | some b => some b.1
    | none => none

/-- Maximum of a list of rationals with a seed (Python `max` over a
nonempty collection, folded from its first element). -/
def listMax (x : ℚ) (xs : List ℚ) : ℚ := xs.foldl max x

/-- The function `_score_confidence` of subscription_service.py. Every
`int()` site truncates a non-negative float except the amount-decay
expression, whose negative values are clamped by the surrounding
`max(0, ...)` exactly as `Int.floor` followed by `max 0` is. -/
def score_confidence (count : Nat) (intervals : List Int) (amounts : List Int)
    (frequency : PyStr) : Int :=
  let occurrence_score : Int := (min count 6 : Nat) * 5
  let lo := (freqBucketOf frequency).1
  let hi := (freqBucketOf frequency).2
  let in_range : Nat := (intervals.filter (fun iv => lo ≤ iv && iv ≤ hi)).length
  let interval_score : Int :=
    if intervals.isEmpty then 0
    else Int.floor (((in_range : ℚ) / (intervals.length : ℚ)) * 40)
  let amount_score : Int :=
    if amounts.isEmpty then 0
    else
      let avg : ℚ := ((amounts.map (fun a => (a : ℚ))).sum) / (amounts.length : ℚ)
      if 0 < avg then
        match amounts.map (fun a => |(a : ℚ) - avg| / avg) with
        | [] => 0
        | x :: xs =>
          let max_spread := listMax x xs
          if max_spread ≤ 1/10 then 30
          else max 0 (Int.floor (30 * (1 - (max_spread - 1/10) / (2/10))))
      else 0
  occurrence_score + interval_score + amount_score

/-- Python `str.title()` at ASCII fidelity: uppercase an alphabetic
character that follows a non-alphabetic one, lowercase the rest. -/
def pyTitleAux : Bool → PyStr → PyStr
  | _, [] => []
  | prevAlpha, c :: cs =>
    if c.isAlpha then
      (if prevAlpha then c.toLower else c.toUpper) :: pyTitleAux true cs
    else c :: pyTitleAux false cs

/-- Python `str.title()`. -/
def pyTitle (s : PyStr) : PyStr := pyTitleAux false s

/-- The repository method `SubscriptionRepository.get_all_match_patterns`:
`match_pattern` of active subscription rows, truthiness-filtered (the set
comprehension keeps only non-empty patterns). Sets are modelled as lists;
only membership is used. -/
def get_all_match_patterns (st : Store) : List PyStr :=
  ((st.subs.filter (·.isActive)).map (·.matchPattern)).filter (fun p => !p.isEmpty)

/-- The method `SubscriptionService._get_bill_patterns`: every pattern of
every active bill, uppercased (rows whose JSON fails to decode contribute
nothing; decoding is collapsed into `Bill.matchPatterns`). -/
def billPatternsUpper (st : Store) : List PyStr :=
  (((st.bills.filter (·.isActive)).map (·.matchPatterns)).flatten).map pyUpper

/-- One detection-input row: `(vendor, (abs(amount_cents), date))`. -/
abbrev DetectRow := PyStr × Int × PyStr

/-- The two gather queries of `detect_subscriptions` followed by the
normalise-and-group preparation: negative-amount account rows then
positive-amount card rows on or after the cutoff date, each mapped to its
normalised vendor and absolute amount, dropping rows whose vendor
normalises to the empty string (`if not vendor: continue`). -/
def detectRows (st : Store) (cutoff : PyStr) : List DetectRow :=
  ((st.acctTxns.filter (fun t => t.amountCents < 0 && pyStrLe cutoff t.transactionDate)).map
      (fun t => (normalize_vendor t.description, (|t.amountCents|, t.transactionDate))) ++
    (st.cardTxns.filter (fun t => 0 < t.amountCents && pyStrLe cutoff t.transactionDate)).map
      (fun t => (normalize_vendor t.description, (|t.amountCents|, t.transactionDate)))).filter
    (fun r => !r.1.isEmpty)

/-- Append one row to its vendor's group, first-appearance order preserved
(`vendor_txns.setdefault(vendor, []).append(...)` on a Python dict). -/
def insertGroup (v : PyStr) (x : Int × PyStr) :
    List (PyStr × List (Int × PyStr)) → List (PyStr × List (Int × PyStr))
  | [] => [(v, [x])]
  | (k, xs) :: rest =>
    if k == v then (k, xs ++ [x]) :: rest else (k, xs) :: insertGroup v x rest

/-- Group detection rows by vendor key, in first-appearance order. -/
def groupByVendor (rows : List DetectRow) : List (PyStr × List (Int × PyStr)) :=
  rows.foldl (fun acc r => insertGroup r.1 r.2 acc) []

/-- The per-vendor computation of `detect_subscriptions` after the dates
have been parsed: compute consecutive day intervals over the date-sorted
occurrences, classify the frequency, score the confidence, and build the
unsaved `Subscription`; `none` is a `continue` (candidate discarded). -/
def detectGroupKernel (today : PyDate) (vendor : PyStr) (sorted : List (Int × PyStr))
    (dates : List PyDate) : Option Subscription :=
  let ords := dates.map (fun d => (toOrdinal d : Int))
  let intervals := List.zipWith (fun a b => b - a) ords ords.tail
  if intervals.isEmpty then none
  else
    match classify_frequency intervals with
    | none => none
    | some frequency =>
      let amounts := sorted.map (·.1)
      let confidence := score_confidence sorted.length intervals amounts frequency
      if confidence < 40 then none
      else
        let avg_amount : Int := Int.floor (((amounts.map (fun a => (a : ℚ))).sum) / (amounts.length : ℚ))
        let lastDate := dates.getLastD ⟨1, 1, 1⟩
        let next_charge := isoFormat (addDays lastDate (freqIntervalDays frequency))
        some
          { name := pyTitle vendor
          , provider := pyTitle vendor
          , amountCents := avg_amount
          , frequency := frequency
          , category := "other".data
          , status := "active".data
          , nextChargeDate := some next_charge
          , lastChargeDate := some (isoFormat lastDate)
          , firstDetected := some (isoFormat today)
          , confidence := confidence
          , matchPattern := vendor
          , source := "detected".data
          , isActive := true }

/-- The per-vendor loop body of `detect_subscriptions`: sort the vendor's
occurrences by date string, parse their dates (the outer `none` models
the `ValueError` a malformed stored date raises), then run
`detectGroupKernel`; the inner `none` is a discarded candidate. -/
def detectGroup (today : PyDate) (vendor : PyStr) (txns : List (Int × PyStr)) :
    Option (Option Subscription) :=
  let sorted := sortBy (fun a b => pyStrLe a.2 b.2) txns
  match sorted.mapM (fun t => parseIsoDate (t.2.take 10)) with
  | none => none
  | some dates => some (detectGroupKernel today vendor sorted dates)

/-- The exclusion list of `detect_subscriptions`: known subscription
patterns plus uppercased active-bill patterns. -/
def detectExcluded (st : Store) : List PyStr :=
  get_all_match_patterns st ++ billPatternsUpper st

/-- The vendor groups of one detection run: the window's rows, grouped. -/
def detectGroups (today : PyDate) (months : Nat) (st : Store) :
    List (PyStr × List (Int × PyStr)) :=
  groupByVendor (detectRows st (isoFormat (subDays today (months * 30))))

/-- The vendor groups that survive the exclusion and minimum-count guards
(`if vendor in excluded: continue` and `if len(txns) < 3: continue`). -/
def detectKept (today : PyDate) (months : Nat) (st : Store) :
    List (PyStr × List (Int × PyStr)) :=
  (detectGroups today months st).filter
    (fun g => !(detectExcluded st).contains g.1 && decide (3 ≤ g.2.length))

/-- The method `SubscriptionService.detect_subscriptions` (with
`date.today()` passed explicitly): run the per-group body over the kept
vendor groups and sort the surviving candidates by confidence descending
(stably). `none` models the `ValueError` a malformed stored date raises. -/
def detect_subscriptions (today : PyDate) (months : Nat) (st : Store) :
    Option (List Subscription) :=
  match (detectKept today months st).mapM (fun g => detectGroup today g.1 g.2) with
  | none => none
  | some results =>
    some (sortBy (fun a b => b.confidence ≤ a.confidence) (results.filterMap id))

/-- The repository method `SubscriptionRepository.find_by_match_pattern`:
first active subscription row with the given pattern. -/
def find_by_match_pattern (st : Store) (pattern : PyStr) : Option Subscription :=
  (st.subs.filter (·.isActive)).find? (fun s => s.matchPattern == pattern)

/-- One iteration of the `confirm_detected` loop. -/
def confirmStep (acc : Store × Nat) (sub : Subscription) : Store × Nat :=
  match find_by_match_pattern acc.1 sub.matchPattern with
  | some _ => acc
  | none => ({ acc.1 with subs := acc.1.subs ++ [sub] }, acc.2 + 1)

/-- The method `SubscriptionService.confirm_detected`: for each candidate
in order, skip it when an active subscription with its pattern already
exists, otherwise insert it; returns the updated store and the count of
rows actually created. -/
def confirm_detected (candidates : List Subscription) (st : Store) : Store × Nat :=
  candidates.foldl confirmStep (st, 0)

/-! ## Statement-support definitions -/

/-- The transaction record with a given id (`fetchone ... WHERE id = ?`). -/
def txnById (st : Store) (id_ : PyStr) : Option Txn :=
  st.acctTxns.find? (fun t => t.id == id_)

/-- Number of active subscription rows with a given vendor pattern. -/
def countActiveSubs (st : Store) (v : PyStr) : Nat :=
  (st.subs.filter (fun s => s.isActive && s.matchPattern == v)).length

/-- The record update performed by `markMatched` on one row. -/
def markTxn (bill_id : PyStr) (t : Txn) : Txn :=
  { t with isMatched := true, linkedBillId := some bill_id }

/-- Apply a sequence of `(bill_id, txn_id)` mark updates in order. -/
def applyMarks (marks : List (PyStr × PyStr)) (txns : List Txn) : List Txn :=
  marks.foldl (fun ts m => markMatched m.1 m.2 ts) txns

/-- The marks the `link_transactions` loop performs: one `(bill_id, txn_id)`
pair per scanned transaction that has a best match. -/
def linkMarks (tol window : Int) (bills : List Bill) (items : List Txn) :
    List (PyStr × PyStr) :=
  items.filterMap (fun t => (find_best_match tol window t bills).map (fun p => (p.1, t.id)))

/-- The cumulative effect of a sequence of mark updates on one row. -/
def applyMarksTxn (marks : List (PyStr × PyStr)) (t : Txn) : Txn :=
  marks.foldl (fun acc m => if acc.id == m.2 then markTxn m.1 acc else acc) t

/-! ## Concrete fixtures used by witnesses and counterexamples -/

/-- The empty store. -/
def emptyStore : Store := ⟨[], [], [], []⟩

/-- The fingerprint of a sample transaction used by the C1 counterexample. -/
def fpClash : PyStr := compute_txn_fingerprint ("2026-01-05".data) ("NETFLIX.COM".data) (-1599)

/-- A store whose ONLY copy of `fpClash` lives in the card-transaction
store. -/
def storeCardFp : Store :=
  ⟨[], [⟨"c1".data, "card1".data, "NETFLIX.COM".data, 1599, "2026-01-05".data, some fpClash⟩],
   [], []⟩

/-- A bill fixture used by the C5 witness. -/
def billW : Bill := ⟨"b1".data, "JCPL Electric".data, ["JCPL".data], 14200, some 15, true⟩

/-- A transaction fixture used by the C5 witness. -/
def txnW : Txn :=
  ⟨"t1".data, "a1".data, "JCPL PAYMENT ELECTRIC".data, -14200, "2026-02-15".data, false, none, none⟩

/-- A store with one active bill and one unmatched transaction. -/
def storeLink : Store := ⟨[txnW], [], [billW], []⟩

/-- A store whose single vendor group has three day-apart occurrences
(median interval 1, in no bucket), used by the C8 witness. -/
def storeDetect : Store :=
  ⟨[ ⟨"d1".data, "a1".data, "SHOPX".data, -500, "2025-05-01".data, false, none, none⟩
   , ⟨"d2".data, "a1".data, "SHOPX".data, -500, "2025-05-02".data, false, none, none⟩
   , ⟨"d3".data, "a1".data, "SHOPX".data, -500, "2025-05-03".data, false, none, none⟩ ],
   [], [], []⟩

/-!
# Theorems

The remainder of the file proves (or refutes) the specification claims
against the embedding above. The first section checks the embedding of
`normalize_vendor` against the repository's own unit-test vectors
(tests/test_subscriptions.py, `TestNormalizeVendor`).
-/

example : normalize_vendor "ACH DEBIT NETFLIX.COM".data = "NETFLIX.COM".data := by decide
example : normalize_vendor "ONLINE PAYMENT SPOTIFY PREMIUM".data = "SPOTIFY PREMIUM".data := by
  decide
example : normalize_vendor "RECURRING PAYMENT ADOBE CREATIVE".data = "ADOBE CREATIVE".data := by
  decide
example : normalize_vendor "NETFLIX.COM 12345678".data = "NETFLIX.COM".data := by decide
example : normalize_vendor "SPOTIFY PREMIUM 02/15".data = "SPOTIFY PREMIUM".data := by decide
example : normalize_vendor "  NETFLIX   COM  ".data = "NETFLIX COM".data := by decide
example : normalize_vendor "netflix.com".data = "NETFLIX.COM".data := by decide
example : normalize_vendor "AUTOMATIC PAYMENT GEICO INSURANCE".data = "GEICO INSURANCE".data := by
  decide
example : normalize_vendor "DEBIT CARD PURCHASE AMAZON PRIME".data = "AMAZON PRIME".data := by
  decide
example : normalize_vendor "VISA HULU LLC".data = "HULU LLC".data := by decide
example : normalize_vendor "NETFLIX.COM".data = "NETFLIX.COM".data := by decide

/-! ## Structure of `pyWords` / `joinSpace` / `pyCollapse` -/

/-- Words produced by the split are nonempty and whitespace-free. -/
lemma pyWordsAux_good (s : PyStr) : ∀ (acc : PyStr),
    (∀ c ∈ acc, isPySpace c = false) →
    ∀ w ∈ pyWordsAux s acc, w ≠ [] ∧ ∀ c ∈ w, isPySpace c = false := by
  induction s with
  | nil =>
    intro acc hacc w hw
    simp only [pyWordsAux] at hw
    by_cases h : acc.isEmpty
    · simp [h] at hw
    · simp [h] at hw
      subst hw
      constructor
      · simpa [List.isEmpty_iff] using h
      · intro c hc
        exact hacc c (List.mem_reverse.mp hc)
  | cons c cs ih =>
    intro acc hacc w hw
    simp only [pyWordsAux] at hw
    by_cases hsp : isPySpace c
    · simp only [hsp, if_true] at hw
      by_cases h : acc.isEmpty
      · simp only [h, if_true] at hw
        exact ih [] (by simp) w hw
      · simp only [h, if_false] at hw
        rcases List.mem_cons.mp hw with h1 | h2
        · subst h1
          refine ⟨by simpa [List.isEmpty_iff] using h, ?_⟩
          intro d hd
          exact hacc d (List.mem_reverse.mp hd)
        · exact ih [] (by simp) w h2
    · simp only [hsp, if_false] at hw
      refine ih (c :: acc) ?_ w hw
      intro d hd
      rcases List.mem_cons.mp hd with h1 | h2
      · subst h1; simpa using hsp
      · exact hacc d h2

/-- Words of a Python split are nonempty and whitespace-free. -/
lemma pyWords_good (s : PyStr) : ∀ w ∈ pyWords s, w ≠ [] ∧ ∀ c ∈ w, isPySpace c = false :=
  pyWordsAux_good s [] (by simp)

/-- Scanning a whitespace-free block pushes it (reversed) onto the
accumulator. -/
lemma pyWordsAux_append (w : PyStr) (hw : ∀ c ∈ w, isPySpace c = false) :
    ∀ (t : PyStr) (acc : PyStr), pyWordsAux (w ++ t) acc = pyWordsAux t (w.reverse ++ acc) := by
  induction w with
  | nil => intro t acc; simp
  | cons c cs ih =>
    intro t acc
    have hc : isPySpace c = false := hw c (by simp)
    simp only [List.cons_append, pyWordsAux, hc, Bool.false_eq_true, if_false, List.append_eq]
    rw [ih (fun d hd => hw d (by simp [hd])) t (c :: acc)]
    simp

/-- Splitting a space-join of good words gives the words back. -/
lemma pyWords_joinSpace (ws : List PyStr)
    (h : ∀ w ∈ ws, w ≠ [] ∧ ∀ c ∈ w, isPySpace c = false) :
    pyWords (joinSpace ws) = ws := by
  induction ws with
  | nil => simp [pyWords, joinSpace, pyWordsAux]
  | cons w ws ih =>
    cases ws with
    | nil =>
      obtain ⟨hne, hgood⟩ := h w (by simp)
      show pyWordsAux w [] = [w]
      have hx := pyWordsAux_append w hgood [] []
      simp only [List.append_nil] at hx
      rw [hx]
      simp only [pyWordsAux]
      rw [if_neg]
      · simp
      · simpa [List.isEmpty_iff] using hne
    | cons w2 ws2 =>
      obtain ⟨hne, hgood⟩ := h w (by simp)
      show pyWordsAux (joinSpace (w :: w2 :: ws2)) [] = w :: w2 :: ws2
      have hjs : joinSpace (w :: w2 :: ws2) = w ++ ' ' :: joinSpace (w2 :: ws2) := rfl
      rw [hjs, pyWordsAux_append w hgood, List.append_nil]
      simp only [pyWordsAux]
      have hsp : isPySpace ' ' = true := by decide
      rw [hsp]
      simp only [if_true]
      rw [if_neg (by simpa [List.isEmpty_iff] using hne)]
      rw [List.reverse_reverse]
      congr 1
      exact ih (fun x hx => h x (by simp [hx]))

/-- Collapsing whitespace is idempotent. -/
lemma pyCollapse_idem (s : PyStr) : pyCollapse (pyCollapse s) = pyCollapse s := by
  unfold pyCollapse
  rw [pyWords_joinSpace (pyWords s) (pyWords_good s)]

/-! ## Character-origin lemmas for the normalisation pipeline -/

/-- Stripping keeps only characters of the original string. -/
lemma mem_pyStrip {c : Char} {s : PyStr} (h : c ∈ pyStrip s) : c ∈ s := by
  unfold pyStrip at h
  rw [List.mem_reverse] at h
  have h1 := (List.dropWhile_sublist isPySpace).mem h
  rw [List.mem_reverse] at h1
  exact (List.dropWhile_sublist isPySpace).mem h1

/-- Boilerplate stripping keeps only characters of the original string. -/
lemma mem_stripBoilerplate {c : Char} {t : PyStr} (h : c ∈ stripBoilerplate t) : c ∈ t := by
  unfold stripBoilerplate at h
  cases hf : stripBoilerplateList.find? (fun p => p.isPrefixOf t) with
  | none => rw [hf] at h; exact h
  | some p =>
    rw [hf] at h
    exact (List.drop_sublist _ _).mem (mem_pyStrip h)

/-- Trailing-reference stripping keeps only characters of the original
string. -/
lemma mem_stripTrailingRef {c : Char} {t : PyStr} (h : c ∈ stripTrailingRef t) : c ∈ t := by
  unfold stripTrailingRef at h
  simp only [] at h
  by_cases hc : 6 ≤ (t.reverse.takeWhile Char.isDigit).length
  · rw [if_pos hc] at h
    rw [List.mem_reverse] at h
    have h1 := (List.dropWhile_sublist isPySpace).mem h
    have h2 := (List.dropWhile_sublist Char.isDigit).mem h1
    rwa [List.mem_reverse] at h2
  · rwa [if_neg hc] at h

/-- Trailing-date stripping keeps only characters of the original string. -/
lemma mem_stripTrailingDate {c : Char} {t : PyStr} (h : c ∈ stripTrailingDate t) : c ∈ t := by
  unfold stripTrailingDate at h
  split at h
  case h_1 d2 d1 sl m2 m1 rest heq =>
    split at h
    · rw [List.mem_reverse] at h
      have h1 := (List.dropWhile_sublist isPySpace).mem h
      have h2 : c ∈ t.reverse := by rw [heq]; simp [h1]
      rwa [List.mem_reverse] at h2
    · exact h
  case h_2 => exact h

/-- Word characters come from the scanned string or the accumulator. -/
lemma mem_pyWordsAux {c : Char} : ∀ (s acc : PyStr) (w : PyStr),
    w ∈ pyWordsAux s acc → c ∈ w → c ∈ s ∨ c ∈ acc := by
  intro s
  induction s with
  | nil =>
    intro acc w hw hc
    simp only [pyWordsAux] at hw
    by_cases h : acc.isEmpty
    · simp [h] at hw
    · simp [h] at hw
      subst hw
      right
      rwa [List.mem_reverse] at hc
  | cons a cs ih =>
    intro acc w hw hc
    simp only [pyWordsAux] at hw
    by_cases hsp : isPySpace a
    · rw [if_pos hsp] at hw
      by_cases h : acc.isEmpty
      · rw [if_pos h] at hw
        rcases ih [] w hw hc with h1 | h2
        · exact Or.inl (by simp [h1])
        · simp at h2
      · rw [if_neg h] at hw
        rcases List.mem_cons.mp hw with h1 | h2
        · subst h1; right; rwa [List.mem_reverse] at hc
        · rcases ih [] w h2 hc with h1 | h1
          · exact Or.inl (by simp [h1])
          · simp at h1
    · rw [if_neg hsp] at hw
      rcases ih (a :: acc) w hw hc with h1 | h1
      · exact Or.inl (by simp [h1])
      · rcases List.mem_cons.mp h1 with h2 | h2
        · exact Or.inl (by simp [h2])
        · exact Or.inr h2

/-- Characters of a space-join come from its words or are the space. -/
lemma mem_joinSpace {c : Char} : ∀ (ws : List PyStr), c ∈ joinSpace ws →
    c = ' ' ∨ ∃ w ∈ ws, c ∈ w := by
  intro ws
  induction ws with
  | nil => intro h; simp [joinSpace] at h
  | cons w ws ih =>
    intro h
    cases ws with
    | nil => exact Or.inr ⟨w, by simp, h⟩
    | cons w2 ws2 =>
      have hjs : joinSpace (w :: w2 :: ws2) = w ++ ' ' :: joinSpace (w2 :: ws2) := rfl
      rw [hjs] at h
      rcases List.mem_append.mp h with h1 | h1
      · exact Or.inr ⟨w, by simp, h1⟩
      · rcases List.mem_cons.mp h1 with h2 | h2
        · exact Or.inl h2
        · rcases ih h2 with h3 | ⟨w3, hw3, hc3⟩
          · exact Or.inl h3
          · exact Or.inr ⟨w3, by simp [hw3], hc3⟩

/-- Characters of a collapse come from the original string or are the
space. -/
lemma mem_pyCollapse {c : Char} {s : PyStr} (h : c ∈ pyCollapse s) : c = ' ' ∨ c ∈ s := by
  rcases mem_joinSpace _ h with h1 | ⟨w, hw, hc⟩
  · exact Or.inl h1
  · rcases mem_pyWordsAux s [] w hw hc with h2 | h2
    · exact Or.inr h2
    · simp at h2

/-! ## Uppercasing lemmas -/

/-- Character construction from a small code point keeps the code point. -/
lemma toNat_ofNat_small (n : Nat) (h : n < 55296) : (Char.ofNat n).toNat = n := by
  have hv : n.isValidChar := Or.inl h
  simp only [Char.ofNat, dif_pos hv, Char.ofNatAux, Char.toNat]
  simp [UInt32.toNat]

/-- ASCII uppercasing is idempotent per character. -/
lemma toUpper_idem (c : Char) : Char.toUpper (Char.toUpper c) = Char.toUpper c := by
  unfold Char.toUpper
  by_cases h : c.toNat ≥ 97 ∧ c.toNat ≤ 122
  · have hv : (Char.ofNat (c.toNat - 32)).toNat = c.toNat - 32 :=
      toNat_ofNat_small _ (by omega)
    simp only [if_pos h, hv]
    have h2 : ¬(97 ≤ c.toNat - 32 ∧ c.toNat - 32 ≤ 122) := by omega
    rw [if_neg]
    intro hcon
    exact h2 hcon
  · simp [h]

/-- Every character of a normalised vendor string is fixed by uppercasing. -/
lemma upperFixed_normalize (s : PyStr) : ∀ c ∈ normalize_vendor s, Char.toUpper c = c := by
  intro c hc
  unfold normalize_vendor at hc
  rcases mem_pyCollapse hc with h1 | h1
  · subst h1; decide
  · have h2 := mem_stripTrailingRef (mem_stripTrailingDate h1)
    have h3 := mem_stripBoilerplate h2
    unfold pyUpper at h3
    rcases List.mem_map.mp h3 with ⟨a, _, ha⟩
    rw [← ha]
    exact toUpper_idem a

/-- Mapping a function that fixes every member is the identity. -/
lemma map_eq_self_of_fixed {f : Char → Char} : ∀ (l : PyStr),
    (∀ c ∈ l, f c = c) → l.map f = l := by
  intro l
  induction l with
  | nil => intro _; rfl
  | cons c cs ih =>
    intro h
    simp only [List.map_cons]
    rw [h c (by simp), ih (fun d hd => h d (by simp [hd]))]

/-! ## Strip-fixedness of collapsed strings -/

/-- The reverse of a space-join of good words starts with a
non-whitespace character. -/
lemma joinSpace_reverse_head : ∀ (ws : List PyStr),
    (∀ w ∈ ws, w ≠ [] ∧ ∀ c ∈ w, isPySpace c = false) → ws ≠ [] →
    ∃ d rest, (joinSpace ws).reverse = d :: rest ∧ isPySpace d = false := by
  intro ws
  induction ws with
  | nil => intro _ h; exact absurd rfl h
  | cons w ws ih =>
    intro hgood _
    cases ws with
    | nil =>
      obtain ⟨hne, hw⟩ := hgood w (by simp)
      show ∃ d rest, w.reverse = d :: rest ∧ isPySpace d = false
      have hrne : w.reverse ≠ [] := by simpa using hne
      refine ⟨w.reverse.head hrne, w.reverse.tail, ?_, ?_⟩
      · exact (List.head_cons_tail _ hrne).symm
      · exact hw _ (List.mem_reverse.mp (List.head_mem hrne))
    | cons w2 ws2 =>
      obtain ⟨d, rest, hd, hdsp⟩ := ih (fun x hx => hgood x (by simp [hx])) (by simp)
      have hjs : joinSpace (w :: w2 :: ws2) = w ++ ' ' :: joinSpace (w2 :: ws2) := rfl
      rw [hjs]
      refine ⟨d, rest ++ ' ' :: w.reverse, ?_, hdsp⟩
      rw [List.reverse_append, List.reverse_cons, hd]
      simp

/-- A space-join of good words starts with a non-whitespace character. -/
lemma joinSpace_head_nospace : ∀ (ws : List PyStr),
    (∀ w ∈ ws, w ≠ [] ∧ ∀ c ∈ w, isPySpace c = false) → ws ≠ [] →
    ∃ d rest, joinSpace ws = d :: rest ∧ isPySpace d = false := by
  intro ws
  cases ws with
  | nil => intro _ h; exact absurd rfl h
  | cons w ws =>
    intro hgood _
    obtain ⟨hne, hw⟩ := hgood w (by simp)
    obtain ⟨c, cs, rfl⟩ := List.exists_cons_of_ne_nil hne
    cases ws with
    | nil => exact ⟨c, cs, rfl, hw c (by simp)⟩
    | cons w2 ws2 =>
      refine ⟨c, cs ++ ' ' :: joinSpace (w2 :: ws2), rfl, hw c (by simp)⟩

/-- A space-join of good words is fixed by stripping. -/
lemma pyStrip_joinSpace (ws : List PyStr)
    (h : ∀ w ∈ ws, w ≠ [] ∧ ∀ c ∈ w, isPySpace c = false) :
    pyStrip (joinSpace ws) = joinSpace ws := by
  cases hws : ws with
  | nil => simp [joinSpace, pyStrip]
  | cons w ws2 =>
    rw [← hws]
    obtain ⟨d, rest, hd, hdsp⟩ := joinSpace_head_nospace ws h (by simp [hws])
    obtain ⟨e, rest2, he, hesp⟩ := joinSpace_reverse_head ws h (by simp [hws])
    unfold pyStrip
    rw [hd]
    rw [List.dropWhile_cons, hdsp]
    simp only [Bool.false_eq_true, if_false]
    rw [← hd, he]
    rw [List.dropWhile_cons, hesp]
    simp only [Bool.false_eq_true, if_false]
    rw [← he, List.reverse_reverse]

/-- A collapsed string is fixed by stripping. -/
lemma pyStrip_pyCollapse (s : PyStr) : pyStrip (pyCollapse s) = pyCollapse s :=
  pyStrip_joinSpace (pyWords s) (pyWords_good s)

/-! ## Claim C2 — idempotence of the vendor normaliser -/

/-- Claim C2, counterexample: `normalize_vendor` is NOT idempotent. The
boilerplate loop strips only the first matching entry, so on
`"VISA MASTERCARD"` the first application strips `VISA` and yields
`MASTERCARD`, while a second application strips that too and yields the
empty string. -/
theorem normalize_vendor_not_idempotent :
    normalize_vendor ("VISA MASTERCARD".data) = "MASTERCARD".data ∧
    normalize_vendor (normalize_vendor ("VISA MASTERCARD".data)) = [] ∧
    normalize_vendor (normalize_vendor ("VISA MASTERCARD".data)) ≠
      normalize_vendor ("VISA MASTERCARD".data) := by
  refine ⟨by decide, by decide, by decide⟩

/-- Claim C2, amended: `normalize_vendor` is idempotent on every input
whose normalised form is a fixed point of the three stripping steps —
that is, whose normalised form does not itself start with a boilerplate
entry, end in a six-or-more-digit run, or end in an `MM/DD` pattern. (The
case/whitespace steps are always idempotent; only the stripping steps can
re-fire, as the counterexample shows.) -/
theorem normalize_vendor_idempotent_when_stripped (s : PyStr)
    (h1 : stripBoilerplate (normalize_vendor s) = normalize_vendor s)
    (h2 : stripTrailingRef (normalize_vendor s) = normalize_vendor s)
    (h3 : stripTrailingDate (normalize_vendor s) = normalize_vendor s) :
    normalize_vendor (normalize_vendor s) = normalize_vendor s := by
  conv_lhs => rw [normalize_vendor]
  rw [show pyStrip (normalize_vendor s) = normalize_vendor s from pyStrip_pyCollapse _]
  rw [show pyUpper (normalize_vendor s) = normalize_vendor s from
    map_eq_self_of_fixed _ (upperFixed_normalize s)]
  rw [h1, h2, h3]
  exact pyCollapse_idem _

/-- Witness for the amended claim C2 at a concrete input. -/
theorem normalize_vendor_idempotent_when_stripped_witness :
    normalize_vendor (normalize_vendor ("ach debit Netflix.com  ".data)) =
      normalize_vendor ("ach debit Netflix.com  ".data) :=
  normalize_vendor_idempotent_when_stripped _ (by decide) (by decide) (by decide)

/-! ## Claim C4 — fingerprint determinism, shape, and normalisation
invariance -/

/-- One word renders as eight hex characters. -/
lemma length_toHex8 (n : Nat) : (toHex8 n).length = 8 := by
  simp [toHex8]

/-- A hex digit is one of the sixteen lowercase hex characters. -/
lemma hexDigit_mem (n : Nat) : hexDigit n ∈ hexDigits := by
  unfold hexDigit
  have h : n % 16 < 16 := Nat.mod_lt _ (by norm_num)
  set k := n % 16 with hk
  interval_cases k <;> decide

/-- The hex digest of any byte string has 64 characters. -/
lemma length_sha256hex (msg : List Nat) : (sha256hex msg).length = 64 := by
  simp [sha256hex, digestWords, length_toHex8]

/-- Every character of a hex digest is a lowercase hex character. -/
lemma mem_sha256hex (msg : List Nat) : ∀ c ∈ sha256hex msg, c ∈ hexDigits := by
  intro c hc
  unfold sha256hex at hc
  rcases List.mem_flatten.mp hc with ⟨l, hl, hcl⟩
  rcases List.mem_map.mp hl with ⟨w, _, hw⟩
  subst hw
  rcases List.mem_map.mp hcl with ⟨i, _, hi⟩
  subst hi
  exact hexDigit_mem _

/-- Claim C4: the fingerprint is a pure function (identical inputs give
identical output), always 16 characters long, all lowercase hex; and two
descriptions with the same uppercased alphanumeric content give the same
fingerprint for the same date and amount. -/
theorem fingerprint_deterministic_hex16 (d desc : PyStr) (a : Int) :
    compute_txn_fingerprint d desc a = compute_txn_fingerprint d desc a ∧
    (compute_txn_fingerprint d desc a).length = 16 ∧
    (∀ c ∈ compute_txn_fingerprint d desc a, c ∈ hexDigits) ∧
    ∀ desc2, fpNormalize desc = fpNormalize desc2 →
      compute_txn_fingerprint d desc a = compute_txn_fingerprint d desc2 a := by
  refine ⟨rfl, ?_, ?_, ?_⟩
  · unfold compute_txn_fingerprint
    rw [List.length_take, length_sha256hex]
    rfl
  · intro c hc
    unfold compute_txn_fingerprint at hc
    exact mem_sha256hex _ c ((List.take_sublist _ _).mem hc)
  · intro desc2 heq
    unfold compute_txn_fingerprint
    rw [heq]

/-- Witness for claim C4 at concrete inputs: `"Amazon.Com"` and
`"AMAZON*COM"` normalise to the same alphanumeric content. -/
theorem fingerprint_deterministic_hex16_witness :
    fpNormalize ("Amazon.Com".data) = fpNormalize ("AMAZON*COM".data) ∧
    compute_txn_fingerprint ("2025-01-15".data) ("Amazon.Com".data) (-4299) =
      compute_txn_fingerprint ("2025-01-15".data) ("AMAZON*COM".data) (-4299) :=
  ⟨by decide,
   (fingerprint_deterministic_hex16 ("2025-01-15".data) ("Amazon.Com".data) (-4299)).2.2.2
     ("AMAZON*COM".data) (by decide)⟩

/-! ## Claim C10 — the date-proximity step is total and bounded -/

/-- Claim C10: for every transaction-date string (well-formed or not),
every due day and every window, the date-proximity score is between 0 and
0.2, and an unparseable date string contributes exactly 0. Totality (the
"never raises" part) is the embedding itself: the `try` body is the
`Option`-valued `dateProximityTry` and the handler maps its failure to 0. -/
theorem date_proximity_score_total_bounded (window : Int) (txn_date_str : PyStr) (due_day : Int) :
    0 ≤ date_proximity_score window txn_date_str due_day ∧
    date_proximity_score window txn_date_str due_day ≤ 1/5 ∧
    (parseIsoDate (txn_date_str.take 10) = none →
      date_proximity_score window txn_date_str due_day = 0) := by
  unfold date_proximity_score dateProximityTry
  cases hp : parseIsoDate (txn_date_str.take 10) with
  | none => refine ⟨by norm_num, by norm_num, fun _ => rfl⟩
  | some dt =>
    refine ⟨?_, ?_, fun hcon => by simp at hcon⟩ <;>
    · simp only []
      by_cases h1 : min due_day ((daysInMonth dt.year dt.month : Int)) < 1
      · rw [if_pos h1]; norm_num
      · rw [if_neg h1]
        by_cases h2 : |(dt.day : Int) - min due_day ((daysInMonth dt.year dt.month : Int))| = 0
        · rw [if_pos h2]; norm_num
        · rw [if_neg h2]
          by_cases h3 : |(dt.day : Int) - min due_day ((daysInMonth dt.year dt.month : Int))| ≤ window
          · rw [if_pos h3]
            set D : Int := |(dt.day : Int) - min due_day ((daysInMonth dt.year dt.month : Int))| with hD
            have hd0 : 0 ≤ D := abs_nonneg _
            have hd1 : (1 : Int) ≤ D := by omega
            have hw1 : (1 : Int) ≤ window := le_trans hd1 h3
            have hdq : (1 : ℚ) ≤ (D : ℚ) := by exact_mod_cast hd1
            have hwq : (0 : ℚ) < (window : ℚ) := by exact_mod_cast lt_of_lt_of_le one_pos hw1
            have hratio1 : (D : ℚ) / (window : ℚ) ≤ 1 := by
              rw [div_le_one hwq]
              exact_mod_cast h3
            have hratio0 : 0 < (D : ℚ) / (window : ℚ) :=
              div_pos (lt_of_lt_of_le one_pos hdq) hwq
            simp only [Option.getD_some]
            nlinarith
          · rw [if_neg h3]; norm_num

/-- Witness for claim C10 at a concrete malformed date string. -/
theorem date_proximity_score_total_bounded_witness :
    0 ≤ date_proximity_score 7 ("not-a-date".data) 15 ∧
    date_proximity_score 7 ("not-a-date".data) 15 = 0 :=
  ⟨(date_proximity_score_total_bounded 7 ("not-a-date".data) 15).1,
   (date_proximity_score_total_bounded 7 ("not-a-date".data) 15).2.2 (by decide)⟩

/-! ## Claim C6 — score bounds -/

/-- The description signal lies in `[0, 1/2]`. -/
lemma descScore_bounds (txn : Txn) (bill : Bill) :
    0 ≤ descScore txn bill ∧ descScore txn bill ≤ 1/2 := by
  unfold descScore
  split <;> norm_num

/-- The amount signal lies in `[0, 3/10]`. -/
lemma amountScore_bounds (tol : Int) (txn : Txn) (bill : Bill) :
    0 ≤ amountScore tol txn bill ∧ amountScore tol txn bill ≤ 3/10 := by
  unfold amountScore
  split
  · simp only []
    by_cases h0 : |(|txn.amountCents|) - bill.amountCents| = 0
    · rw [if_pos h0]; norm_num
    · rw [if_neg h0]
      by_cases h1 : |(|txn.amountCents|) - bill.amountCents| ≤ tol
      · rw [if_pos h1]
        set D : Int := |(|txn.amountCents|) - bill.amountCents| with hD
        have hd0 : 0 ≤ D := abs_nonneg _
        have hd1 : (1 : Int) ≤ D := by omega
        have ht1 : (1 : Int) ≤ tol := le_trans hd1 h1
        have hdq : (1 : ℚ) ≤ (D : ℚ) := by exact_mod_cast hd1
        have htq : (0 : ℚ) < (tol : ℚ) := by exact_mod_cast lt_of_lt_of_le one_pos ht1
        have hratio1 : (D : ℚ) / (tol : ℚ) ≤ 1 := by
          rw [div_le_one htq]
          exact_mod_cast h1
        have hratio0 : 0 < (D : ℚ) / (tol : ℚ) := div_pos (lt_of_lt_of_le one_pos hdq) htq
        constructor <;> nlinarith
      · rw [if_neg h1]; norm_num
  · norm_num

/-- The date signal lies in `[0, 1/5]`. -/
lemma dateScore_bounds (window : Int) (txn : Txn) (bill : Bill) :
    0 ≤ dateScore window txn bill ∧ dateScore window txn bill ≤ 1/5 := by
  unfold dateScore
  cases bill.dueDay with
  | none => norm_num
  | some d =>
    simp only []
    split
    · exact ⟨(date_proximity_score_total_bounded window txn.transactionDate d).1,
        (date_proximity_score_total_bounded window txn.transactionDate d).2.1⟩
    · norm_num

/-- Claim C6: for every transaction, every bill and every configuration,
the match score satisfies `0 ≤ score ≤ 1`. -/
theorem score_match_bounds (tol window : Int) (txn : Txn) (bill : Bill) :
    0 ≤ score_match tol window txn bill ∧ score_match tol window txn bill ≤ 1 := by
  obtain ⟨d0, d1⟩ := descScore_bounds txn bill
  obtain ⟨a0, a1⟩ := amountScore_bounds tol txn bill
  obtain ⟨t0, t1⟩ := dateScore_bounds window txn bill
  unfold score_match
  constructor <;> linarith

/-! ## Claim C3 — `confirm_match` and missing ids -/

/-- Learning a pattern never touches the transaction tables. -/
lemma learn_pattern_acctTxns (bill_id description : PyStr) (st : Store) :
    (learn_pattern bill_id description st).acctTxns = st.acctTxns := by
  unfold learn_pattern
  cases st.bills.find? (fun b => b.id == bill_id) with
  | none => rfl
  | some bill =>
    simp only []
    split
    · rfl
    · split <;> rfl

/-- Learning a pattern for an unknown bill id changes nothing. -/
lemma learn_pattern_missing_bill (bill_id description : PyStr) (st : Store)
    (h : st.bills.find? (fun b => b.id == bill_id) = none) :
    learn_pattern bill_id description st = st := by
  unfold learn_pattern
  rw [h]

/-- Claim C3, counterexample: `confirm_match` on ids that exist nowhere
returns normally (`Except.ok`) with the store unchanged — no `NotFound`
is raised or surfaced, contradicting the claim that a missing transaction
or bill id fails with `NotFound` surfaced to the caller. -/
theorem confirm_match_missing_ids_returns_normally :
    confirm_match ("tx-missing".data) ("bill-missing".data) emptyStore =
      Except.ok emptyStore := by
  rfl

/-- Claim C3, amended: `confirm_match` never raises `NotFound` — the only
error it can surface is `DatabaseError`. When the transaction id is
unknown it silently does nothing and returns normally; when the
transaction exists but the bill id matches no row of `bills`, the
foreign-key-constrained `UPDATE` fails and `DatabaseError` (not
`NotFound`) reaches the caller with the store unchanged; when both ids
exist it succeeds, marking the transaction matched and linked to the
bill and then learning a pattern from its description. -/
theorem confirm_match_no_notfound (st : Store) (transaction_id bill_id : PyStr) :
    (∀ e, confirm_match transaction_id bill_id st = Except.error e →
      e = LinkerError.databaseError) ∧
    (st.acctTxns.find? (fun t => t.id == transaction_id) = none →
      confirm_match transaction_id bill_id st = Except.ok st) ∧
    (∀ txn, st.acctTxns.find? (fun t => t.id == transaction_id) = some txn →
      (st.bills.any (fun b => b.id == bill_id) = false →
        confirm_match transaction_id bill_id st =
          Except.error LinkerError.databaseError) ∧
      (st.bills.any (fun b => b.id == bill_id) = true →
        ∃ st', confirm_match transaction_id bill_id st = Except.ok st' ∧
          st' = learn_pattern bill_id txn.description
            { st with acctTxns := markMatched bill_id transaction_id st.acctTxns } ∧
          st'.acctTxns = markMatched bill_id transaction_id st.acctTxns)) := by
  have hnone : st.acctTxns.find? (fun t => t.id == transaction_id) = none →
      confirm_match transaction_id bill_id st = Except.ok st := by
    intro h
    unfold confirm_match
    rw [h]
  have hsome : ∀ txn, st.acctTxns.find? (fun t => t.id == transaction_id) = some txn →
      confirm_match transaction_id bill_id st =
        if st.bills.any (fun b => b.id == bill_id) then
          Except.ok (learn_pattern bill_id txn.description
            { st with acctTxns := markMatched bill_id transaction_id st.acctTxns })
        else Except.error LinkerError.databaseError := by
    intro txn h
    unfold confirm_match
    rw [h]
  refine ⟨?_, hnone, ?_⟩
  · intro e he
    cases hfind : st.acctTxns.find? (fun t => t.id == transaction_id) with
    | none =>
      rw [hnone hfind] at he
      exact absurd he (by simp)
    | some txn =>
      rw [hsome txn hfind] at he
      by_cases hb : st.bills.any (fun b => b.id == bill_id) = true
      · rw [if_pos hb] at he
        exact absurd he (by simp)
      · rw [if_neg hb] at he
        injection he with h
        exact h.symm
  · intro txn hfind
    constructor
    · intro hb
      rw [hsome txn hfind, if_neg (by simp [hb])]
    · intro hb
      refine ⟨learn_pattern bill_id txn.description { st with acctTxns := markMatched bill_id transaction_id st.acctTxns }, by rw [hsome txn hfind, if_pos hb], rfl, ?_⟩
      rw [learn_pattern_acctTxns]

/-- Witness for the amended claim C3 on the one-transaction, one-bill
store: a nonexistent transaction id does nothing and returns normally; an
existing transaction with a nonexistent bill id surfaces `DatabaseError`;
an existing transaction with an existing bill id succeeds and links the
transaction. -/
theorem confirm_match_no_notfound_witness :
    confirm_match ("zzz".data) ("b1".data) storeLink = Except.ok storeLink ∧
    confirm_match ("t1".data) ("b9".data) storeLink =
      Except.error LinkerError.databaseError ∧
    ∃ st', confirm_match ("t1".data) ("b1".data) storeLink = Except.ok st' ∧
      st'.acctTxns = markMatched ("b1".data) ("t1".data) storeLink.acctTxns := by
  refine ⟨(confirm_match_no_notfound storeLink ("zzz".data) ("b1".data)).2.1 (by decide),
    ((confirm_match_no_notfound storeLink ("t1".data) ("b9".data)).2.2 txnW (by decide)).1
      (by decide), ?_⟩
  obtain ⟨st', h1, _, h2⟩ :=
    ((confirm_match_no_notfound storeLink ("t1".data) ("b1".data)).2.2 txnW (by decide)).2
      (by decide)
  exact ⟨st', h1, h2⟩

/-! ## Claim C1 — the dedup check across import paths -/

/-- Claim C1, counterexample: a fingerprint that exists only in the
card-transaction store does NOT stop the CSV import path from inserting
the same transaction again, although the capture import path skips it as
a duplicate on exactly the same store. The claim that every import path
queries every transaction store is therefore false. -/
theorem csv_import_ignores_card_store :
    (csvImportRow ("a1".data) storeCardFp ("2026-01-05".data) ("NETFLIX.COM".data) (-1599)).2 =
      true ∧
    (captureImportStep ("a1".data) true storeCardFp
        ⟨"2026-01-05".data, "NETFLIX.COM".data, -1599, []⟩).2 = RowOutcome.skipped := by
  constructor
  · unfold csvImportRow
    simp [storeCardFp, fingerprintInAcct]
  · unfold captureImportStep
    simp [storeCardFp, fingerprintInAcct, fingerprintInCard, fpClash]

/-- Claim C1, amended: only the capture import path queries both
transaction stores before inserting (and reports a hit in either as
skipped, leaving the store unchanged); the CSV and PDF import paths query
only the account-transaction store, so only a fingerprint already present
there prevents their insert (and they skip such rows silently, without a
skipped counter). -/
theorem import_dedup_per_path (st : Store) (account_id : PyStr) (entityAccount : Bool)
    (txn : ExtractedTxn) (hdate : ¬txn.date.isEmpty) (hdesc : ¬txn.description.isEmpty)
    (txn_date description : PyStr) (amount_cents : Int) :
    ((captureImportStep account_id entityAccount st txn).2 = RowOutcome.skipped ↔
      (fingerprintInAcct st (compute_txn_fingerprint txn.date txn.description txn.amountCents) ||
       fingerprintInCard st (compute_txn_fingerprint txn.date txn.description txn.amountCents)) =
        true) ∧
    ((captureImportStep account_id entityAccount st txn).2 = RowOutcome.skipped →
      (captureImportStep account_id entityAccount st txn).1 = st) ∧
    ((csvImportRow account_id st txn_date description amount_cents).2 = false ↔
      fingerprintInAcct st (compute_txn_fingerprint txn_date description amount_cents) = true) ∧
    ((csvImportRow account_id st txn_date description amount_cents).2 = false →
      (csvImportRow account_id st txn_date description amount_cents).1 = st) ∧
    ((pdfImportRow account_id st txn_date description amount_cents).2 = false ↔
      fingerprintInAcct st (compute_txn_fingerprint txn_date description amount_cents) = true) ∧
    ((pdfImportRow account_id st txn_date description amount_cents).2 = false →
      (pdfImportRow account_id st txn_date description amount_cents).1 = st) := by
  have hne : (txn.date.isEmpty || txn.description.isEmpty) = false := by
    simp [hdate, hdesc]
  refine ⟨?_, ?_, ?_, ?_, ?_, ?_⟩
  · by_cases hA : (fingerprintInAcct st
        (compute_txn_fingerprint txn.date txn.description txn.amountCents) ||
        fingerprintInCard st
          (compute_txn_fingerprint txn.date txn.description txn.amountCents)) = true
    · simp [captureImportStep, hne, hA]
    · cases entityAccount <;> simp [captureImportStep, hne, hA]
  · by_cases hA : (fingerprintInAcct st
        (compute_txn_fingerprint txn.date txn.description txn.amountCents) ||
        fingerprintInCard st
          (compute_txn_fingerprint txn.date txn.description txn.amountCents)) = true
    · simp [captureImportStep, hne, hA]
    · cases entityAccount <;> simp [captureImportStep, hne, hA]
  · by_cases hA : fingerprintInAcct st
        (compute_txn_fingerprint txn_date description amount_cents) = true
    · simp [csvImportRow, hA]
    · simp [csvImportRow, hA]
  · by_cases hA : fingerprintInAcct st
        (compute_txn_fingerprint txn_date description amount_cents) = true
    · simp [csvImportRow, hA]
    · simp [csvImportRow, hA]
  · by_cases hA : fingerprintInAcct st
        (compute_txn_fingerprint txn_date description amount_cents) = true
    · simp [pdfImportRow, hA]
    · simp [pdfImportRow, hA]
  · by_cases hA : fingerprintInAcct st
        (compute_txn_fingerprint txn_date description amount_cents) = true
    · simp [pdfImportRow, hA]
    · simp [pdfImportRow, hA]

/-- Witness for the amended claim C1: on `storeCardFp`, the capture path
skips the clashing row and leaves the store unchanged, while the CSV path
inserts it. -/
theorem import_dedup_per_path_witness :
    ((captureImportStep ("a1".data) true storeCardFp
        ⟨"2026-01-05".data, "NETFLIX.COM".data, -1599, []⟩).2 = RowOutcome.skipped ↔
      (fingerprintInAcct storeCardFp fpClash || fingerprintInCard storeCardFp fpClash) = true) ∧
    ((csvImportRow ("a1".data) storeCardFp ("2026-01-05".data) ("NETFLIX.COM".data) (-1599)).2 =
        false ↔
      fingerprintInAcct storeCardFp fpClash = true) := by
  have h := import_dedup_per_path storeCardFp ("a1".data) true
    ⟨"2026-01-05".data, "NETFLIX.COM".data, -1599, []⟩ (by decide) (by decide)
    ("2026-01-05".data) ("NETFLIX.COM".data) (-1599)
  exact ⟨h.1, h.2.2.1⟩

/-! ## Claims C5 and C7 — the statement-linking batch pass -/

-- characterization of the best-match scan loop
lemma fbmLoop_spec (tol window : Int) (txn : Txn) :
    ∀ (bills : List Bill) (bid0 : Option PyStr) (s0 : ℚ),
    (fbmLoop tol window txn bills (bid0, s0) = (bid0, s0) ∧
      ∀ b ∈ bills, score_match tol window txn b ≤ s0 ∨ score_match tol window txn b < 2/5) ∨
    (∃ i : Fin bills.length,
      fbmLoop tol window txn bills (bid0, s0) =
        (some (bills.get i).id, score_match tol window txn (bills.get i)) ∧
      s0 < score_match tol window txn (bills.get i) ∧
      2/5 ≤ score_match tol window txn (bills.get i) ∧
      (∀ j : Fin bills.length,
        score_match tol window txn (bills.get j) ≤ score_match tol window txn (bills.get i)) ∧
      (∀ j : Fin bills.length, (j : ℕ) < (i : ℕ) →
        score_match tol window txn (bills.get j) < score_match tol window txn (bills.get i))) := by
  intro bills
  induction bills with
  | nil =>
    intro bid0 s0
    left
    exact ⟨rfl, by simp⟩
  | cons b bs ih =>
    intro bid0 s0
    by_cases hrep : score_match tol window txn b > s0 ∧ score_match tol window txn b ≥ 2/5
    · -- the head replaces the running best
      have hstep : fbmLoop tol window txn (b :: bs) (bid0, s0) =
          fbmLoop tol window txn bs (some b.id, score_match tol window txn b) := by
        simp only [fbmLoop, if_pos hrep]
      rcases ih (some b.id) (score_match tol window txn b) with
        ⟨heq, hall⟩ | ⟨i, heq, hgt, hge, hmax, hfirst⟩
      · right
        refine ⟨⟨0, by simp⟩, ?_, hrep.1, hrep.2, ?_, ?_⟩
        · rw [hstep, heq]; rfl
        · intro j
          rcases j with ⟨jv, hj⟩
          cases jv with
          | zero => exact le_refl _
          | succ k =>
            rcases hall (bs.get ⟨k, by simpa using hj⟩) (List.get_mem _ _ _) with h1 | h1
            · exact h1
            · exact le_of_lt (lt_of_lt_of_le h1 hrep.2)
        · intro j hj
          simp at hj
      · right
        refine ⟨⟨(i : ℕ) + 1, by simp [i.isLt]⟩, ?_, ?_, hge, ?_, ?_⟩
        · rw [hstep, heq]; rfl
        · exact lt_trans hrep.1 hgt
        · intro j
          rcases j with ⟨jv, hj⟩
          cases jv with
          | zero => exact le_of_lt hgt
          | succ k => exact hmax ⟨k, by simpa using hj⟩
        · intro j hj
          rcases j with ⟨jv, hjlt⟩
          cases jv with
          | zero => exact hgt
          | succ k => exact hfirst ⟨k, by simpa using hjlt⟩ (by simpa using hj)
    · -- the head is skipped
      have hstep : fbmLoop tol window txn (b :: bs) (bid0, s0) =
          fbmLoop tol window txn bs (bid0, s0) := by
        simp only [fbmLoop, if_neg hrep]
      rcases ih bid0 s0 with ⟨heq, hall⟩ | ⟨i, heq, hgt, hge, hmax, hfirst⟩
      · left
        refine ⟨by rw [hstep, heq], ?_⟩
        intro x hx
        rcases List.mem_cons.mp hx with h1 | h1
        · subst h1
          rcases not_and_or.mp hrep with h2 | h2
          · exact Or.inl (le_of_not_lt h2)
          · exact Or.inr (lt_of_not_le h2)
        · exact hall x h1
      · right
        refine ⟨⟨(i : ℕ) + 1, by simp [i.isLt]⟩, ?_, hgt, hge, ?_, ?_⟩
        · rw [hstep, heq]; rfl
        · intro j
          rcases j with ⟨jv, hj⟩
          cases jv with
          | zero =>
            rcases not_and_or.mp hrep with h2 | h2
            · exact le_trans (le_of_not_lt h2) (le_of_lt hgt)
            · exact le_trans (le_of_lt (lt_of_not_le h2)) hge
          | succ k => exact hmax ⟨k, by simpa using hj⟩
        · intro j hj
          rcases j with ⟨jv, hjlt⟩
          cases jv with
          | zero =>
            rcases not_and_or.mp hrep with h2 | h2
            · exact lt_of_le_of_lt (le_of_not_lt h2) hgt
            · exact lt_of_lt_of_le (lt_of_not_le h2) hge
          | succ k => exact hfirst ⟨k, by simpa using hjlt⟩ (by simpa using hj)


-- find_best_match returns none exactly when no active bill reaches the threshold
lemma find_best_match_none_iff (tol window : Int) (txn : Txn) (bills : List Bill)
    (hids : ∀ b ∈ bills, b.id ≠ []) :
    find_best_match tol window txn bills = none ↔
      ∀ b ∈ bills, score_match tol window txn b < 2/5 := by
  unfold find_best_match
  rcases fbmLoop_spec tol window txn bills none 0 with
    ⟨heq, hall⟩ | ⟨i, heq, _, hge, _, _⟩
  · rw [heq]
    simp only [true_iff]
    intro b hb
    rcases hall b hb with h1 | h1
    · exact lt_of_le_of_lt h1 (by norm_num)
    · exact h1
  · rw [heq]
    have hne : ¬(bills.get i).id.isEmpty := by
      have hx := hids (bills.get i) (List.get_mem _ _ _)
      simpa [List.isEmpty_iff] using hx
    simp only [hne, Bool.false_eq_true, if_false]
    constructor
    · intro hcon; exact absurd hcon (by simp)
    · intro hall2
      exact absurd hge (not_le.mpr (hall2 (bills.get i) (List.get_mem _ _ _)))

-- characterization of a successful find_best_match
lemma find_best_match_some (tol window : Int) (txn : Txn) (bills : List Bill)
    (hids : ∀ b ∈ bills, b.id ≠ []) (bid : PyStr) (s : ℚ)
    (h : find_best_match tol window txn bills = some (bid, s)) :
    ∃ i : Fin bills.length, (bills.get i).id = bid ∧
      score_match tol window txn (bills.get i) = s ∧ 2/5 ≤ s ∧
      (∀ j : Fin bills.length, score_match tol window txn (bills.get j) ≤ s) ∧
      (∀ j : Fin bills.length, (j : ℕ) < (i : ℕ) →
        score_match tol window txn (bills.get j) < s) := by
  unfold find_best_match at h
  rcases fbmLoop_spec tol window txn bills none 0 with
    ⟨heq, _⟩ | ⟨i, heq, _, hge, hmax, hfirst⟩
  · rw [heq] at h
    simp at h
  · rw [heq] at h
    have hne : ¬(bills.get i).id.isEmpty := by
      have hx := hids (bills.get i) (List.get_mem _ _ _)
      simpa [List.isEmpty_iff] using hx
    simp only [hne, Bool.false_eq_true, if_false, Option.some.injEq, Prod.mk.injEq] at h
    obtain ⟨hbid, hs⟩ := h
    exact ⟨i, hbid, hs, hs ▸ hge, fun j => hs ▸ hmax j, fun j hj => hs ▸ hfirst j hj⟩


-- the link loop is the accumulated mark updates plus the match list
lemma linkFold_eq (tol window : Int) (bills : List Bill) :
    ∀ (items : List Txn) (st0 : Store) (ms0 : List MatchEntry),
    items.foldl (linkStep tol window bills) (st0, ms0) =
      ({ st0 with acctTxns := applyMarks (linkMarks tol window bills items) st0.acctTxns },
       ms0 ++ items.filterMap (fun t => (find_best_match tol window t bills).map
         (fun p => ⟨t.id, p.1, t.description, p.2⟩))) := by
  intro items
  induction items with
  | nil =>
    intro st0 ms0
    simp [applyMarks, linkMarks]
  | cons t rest ih =>
    intro st0 ms0
    cases hb : find_best_match tol window t bills with
    | none =>
      have hstep : linkStep tol window bills (st0, ms0) t = (st0, ms0) := by
        unfold linkStep
        rw [hb]
      rw [List.foldl_cons, hstep, ih st0 ms0]
      simp [linkMarks, hb]
    | some p =>
      have hstep : linkStep tol window bills (st0, ms0) t =
          ({ st0 with acctTxns := markMatched p.1 t.id st0.acctTxns },
           ms0 ++ [⟨t.id, p.1, t.description, p.2⟩]) := by
        unfold linkStep
        rw [hb]
      rw [List.foldl_cons, hstep, ih _ _]
      have hmarks : linkMarks tol window bills (t :: rest) =
          (p.1, t.id) :: linkMarks tol window bills rest := by
        simp [linkMarks, hb]
      rw [hmarks]
      simp [applyMarks, hb]

-- applying marks to a table is a map of the per-row cumulative update
lemma applyMarks_eq_map :
    ∀ (marks : List (PyStr × PyStr)) (txns : List Txn),
    applyMarks marks txns = txns.map (applyMarksTxn marks) := by
  intro marks
  induction marks with
  | nil =>
    intro txns
    show txns = txns.map (fun t => t)
    simp
  | cons m ms ih =>
    intro txns
    show applyMarks ms (markMatched m.1 m.2 txns) = _
    rw [ih (markMatched m.1 m.2 txns)]
    unfold markMatched
    rw [List.map_map]
    rfl

-- the cumulative update never changes the row id
lemma applyMarksTxn_id (marks : List (PyStr × PyStr)) (t : Txn) :
    (applyMarksTxn marks t).id = t.id := by
  induction marks generalizing t with
  | nil => rfl
  | cons m ms ih =>
    show (applyMarksTxn ms (if t.id == m.2 then markTxn m.1 t else t)).id = t.id
    rw [ih]
    split <;> rfl

-- nor the fields the scoring reads, nor the account
lemma applyMarksTxn_fields (marks : List (PyStr × PyStr)) (t : Txn) :
    (applyMarksTxn marks t).description = t.description ∧
    (applyMarksTxn marks t).amountCents = t.amountCents ∧
    (applyMarksTxn marks t).transactionDate = t.transactionDate ∧
    (applyMarksTxn marks t).accountId = t.accountId := by
  induction marks generalizing t with
  | nil => exact ⟨rfl, rfl, rfl, rfl⟩
  | cons m ms ih =>
    have hcons : applyMarksTxn (m :: ms) t =
        applyMarksTxn ms (if t.id == m.2 then markTxn m.1 t else t) := rfl
    rcases ih (if t.id == m.2 then markTxn m.1 t else t) with ⟨h1, h2, h3, h4⟩
    rw [hcons, h1, h2, h3, h4]
    split <;> exact ⟨rfl, rfl, rfl, rfl⟩

-- rows targeted by no mark are unchanged
lemma applyMarksTxn_untargeted (marks : List (PyStr × PyStr)) (t : Txn)
    (h : ∀ m ∈ marks, m.2 ≠ t.id) : applyMarksTxn marks t = t := by
  induction marks generalizing t with
  | nil => rfl
  | cons m ms ih =>
    show applyMarksTxn ms (if t.id == m.2 then markTxn m.1 t else t) = t
    have hne : (t.id == m.2) = false := by
      have := h m (by simp)
      simp [BEq.symm_false]
      exact fun hc => this hc.symm
    rw [hne]
    simp only [Bool.false_eq_true, if_false]
    exact ih t (fun x hx => h x (by simp [hx]))

-- a row targeted by exactly one mark receives exactly that mark
lemma applyMarksTxn_once (pre post : List (PyStr × PyStr)) (bid : PyStr) (t : Txn)
    (hpre : ∀ m ∈ pre, m.2 ≠ t.id) (hpost : ∀ m ∈ post, m.2 ≠ t.id) :
    applyMarksTxn (pre ++ (bid, t.id) :: post) t = markTxn bid t := by
  have h1 : applyMarksTxn (pre ++ (bid, t.id) :: post) t =
      applyMarksTxn ((bid, t.id) :: post) (applyMarksTxn pre t) := by
    unfold applyMarksTxn
    rw [List.foldl_append]
  rw [h1, applyMarksTxn_untargeted pre t hpre]
  show applyMarksTxn post (if t.id == t.id then markTxn bid t else t) = markTxn bid t
  rw [beq_self_eq_true]
  simp only [if_true]
  exact applyMarksTxn_untargeted post (markTxn bid t) (fun m hm => hpost m hm)


-- scoring reads only the description, amount and date fields
lemma score_match_congr (tol window : Int) (t t' : Txn) (b : Bill)
    (h1 : t'.description = t.description) (h2 : t'.amountCents = t.amountCents)
    (h3 : t'.transactionDate = t.transactionDate) :
    score_match tol window t' b = score_match tol window t b := by
  unfold score_match descScore amountScore dateScore
  rw [h1, h2, h3]

lemma fbmLoop_congr (tol window : Int) (t t' : Txn)
    (hs : ∀ b, score_match tol window t' b = score_match tol window t b) :
    ∀ (bills : List Bill) (init : Option PyStr × ℚ),
    fbmLoop tol window t' bills init = fbmLoop tol window t bills init := by
  intro bills
  induction bills with
  | nil => intro _; rfl
  | cons b bs ih =>
    intro init
    show fbmLoop tol window t' bs _ = fbmLoop tol window t bs _
    rw [hs b, ih]

lemma find_best_match_congr (tol window : Int) (t t' : Txn) (bills : List Bill)
    (h1 : t'.description = t.description) (h2 : t'.amountCents = t.amountCents)
    (h3 : t'.transactionDate = t.transactionDate) :
    find_best_match tol window t' bills = find_best_match tol window t bills := by
  unfold find_best_match
  rw [fbmLoop_congr tol window t t' (fun b => score_match_congr tol window t t' b h1 h2 h3)]

-- find? by id through an id-preserving map
lemma find?_id_map (g : Txn → Txn) (hg : ∀ x, (g x).id = x.id) (txns : List Txn) (tid : PyStr) :
    (txns.map g).find? (fun x => x.id == tid) =
      (txns.find? (fun x => x.id == tid)).map g := by
  rw [List.find?_map]
  have hp : ((fun x : Txn => x.id == tid) ∘ g) = (fun x : Txn => x.id == tid) := by
    funext x
    show ((g x).id == tid) = (x.id == tid)
    rw [hg x]
  rw [hp]

-- with pairwise-distinct ids, find? by a member's id returns that member
lemma find?_id_of_nodup : ∀ (txns : List Txn), (txns.map (·.id)).Nodup →
    ∀ t ∈ txns, txns.find? (fun x => x.id == t.id) = some t := by
  intro txns
  induction txns with
  | nil => intro _ t ht; simp at ht
  | cons x rest ih =>
    intro hnd t ht
    rw [List.map_cons, List.nodup_cons] at hnd
    by_cases hx : (x.id == t.id) = true
    · rw [List.find?_cons, hx]
      rcases List.mem_cons.mp ht with h1 | h1
      · rw [h1]
      · exfalso
        have hxe : x.id = t.id := by simpa using hx
        exact hnd.1 (hxe ▸ List.mem_map_of_mem (·.id) h1)
    · rw [List.find?_cons]
      have hx2 : (x.id == t.id) = false := by simpa using hx
      rw [hx2]
      rcases List.mem_cons.mp ht with h1 | h1
      · exfalso; subst h1; simp at hx
      · exact ih hnd.2 t h1

-- every mark target is the id of a scanned transaction
lemma linkMarks_target_mem (tol window : Int) (bills : List Bill) (items : List Txn)
    (m : PyStr × PyStr) (hm : m ∈ linkMarks tol window bills items) :
    m.2 ∈ items.map (·.id) := by
  unfold linkMarks at hm
  rcases List.mem_filterMap.mp hm with ⟨t, ht, heq⟩
  cases hb : find_best_match tol window t bills with
  | none => rw [hb] at heq; simp at heq
  | some p =>
    rw [hb] at heq
    simp only [Option.map_some', Option.some.injEq] at heq
    rw [← heq]
    exact List.mem_map_of_mem (·.id) ht

-- the cumulative link update on a scanned row, when ids are unique
lemma applyMarksTxn_linkMarks (tol window : Int) (bills : List Bill) (items : List Txn)
    (t : Txn) (hnd : (items.map (·.id)).Nodup) (ht : t ∈ items) :
    applyMarksTxn (linkMarks tol window bills items) t =
      (match find_best_match tol window t bills with
       | some p => markTxn p.1 t
       | none => t) := by
  obtain ⟨pre, post, rfl⟩ := List.append_of_mem ht
  rw [List.map_append, List.map_cons] at hnd
  rw [List.nodup_middle, List.nodup_cons] at hnd
  have hid : t.id ∉ (pre.map (·.id)) ++ (post.map (·.id)) := hnd.1
  have hpre : ∀ m ∈ linkMarks tol window bills pre, m.2 ≠ t.id := by
    intro m hm hcon
    exact hid (List.mem_append.mpr (Or.inl (hcon ▸ linkMarks_target_mem _ _ _ _ m hm)))
  have hpost : ∀ m ∈ linkMarks tol window bills post, m.2 ≠ t.id := by
    intro m hm hcon
    exact hid (List.mem_append.mpr (Or.inr (hcon ▸ linkMarks_target_mem _ _ _ _ m hm)))
  have hsplit : linkMarks tol window bills (pre ++ t :: post) =
      linkMarks tol window bills pre ++
        (match find_best_match tol window t bills with
         | some p => [(p.1, t.id)]
         | none => []) ++ linkMarks tol window bills post := by
    unfold linkMarks
    rw [List.filterMap_append, List.filterMap_cons]
    cases hbx : find_best_match tol window t bills with
    | none => simp [hbx]
    | some p => simp [hbx]
  cases hb : find_best_match tol window t bills with
  | none =>
    rw [hb] at hsplit
    rw [hsplit]
    simp only [List.append_nil]
    refine applyMarksTxn_untargeted _ _ ?_
    intro m hm
    rcases List.mem_append.mp hm with h1 | h1
    · exact hpre m h1
    · exact hpost m h1
  | some p =>
    rw [hb] at hsplit
    rw [hsplit]
    have hassoc : linkMarks tol window bills pre ++ [(p.1, t.id)] ++
        linkMarks tol window bills post =
        linkMarks tol window bills pre ++ (p.1, t.id) :: linkMarks tol window bills post := by
      simp
    rw [hassoc]
    exact applyMarksTxn_once _ _ _ _ hpre hpost


-- the state produced by link_transactions, via the fold lemma
lemma link_transactions_state (tol window : Int) (account_id : Option PyStr) (st : Store) :
    (link_transactions tol window account_id st).1 =
      { st with acctTxns := applyMarks (linkMarks tol window (activeBills st) (unmatchedScan st account_id)) st.acctTxns } := by
  unfold link_transactions
  dsimp only
  rw [linkFold_eq]

-- the match list produced by link_transactions, via the fold lemma
lemma link_transactions_matchList (tol window : Int) (account_id : Option PyStr) (st : Store) :
    (link_transactions tol window account_id st).2.matchList =
      (unmatchedScan st account_id).filterMap
        (fun t => (find_best_match tol window t (activeBills st)).map
          (fun p => ⟨t.id, p.1, t.description, p.2⟩)) ∧
    (link_transactions tol window account_id st).2.matched =
      ((unmatchedScan st account_id).filterMap
        (fun t => (find_best_match tol window t (activeBills st)).map
          (fun p => (⟨t.id, p.1, t.description, p.2⟩ : MatchEntry)))).length := by
  unfold link_transactions
  dsimp only
  rw [linkFold_eq]
  simp

/-- Claim C5: after a linking run, a scanned unmatched transaction is
marked matched exactly when some active bill scores at least 0.4 against
it, and when a best match exists the transaction is linked to the first
highest-scoring active bill (strictly earlier bills score strictly less,
no bill scores more). -/
theorem link_transactions_marks_best (tol window : Int) (account_id : Option PyStr) (st : Store)
    (hids : ∀ b ∈ activeBills st, b.id ≠ [])
    (hnd : (st.acctTxns.map (·.id)).Nodup) :
    ∀ t ∈ unmatchedScan st account_id,
    ∃ t', txnById (link_transactions tol window account_id st).1 t.id = some t' ∧
      (t'.isMatched = true ↔ ∃ b ∈ activeBills st, 2/5 ≤ score_match tol window t b) ∧
      (∀ bid s, find_best_match tol window t (activeBills st) = some (bid, s) →
        t'.linkedBillId = some bid ∧
        ∃ i : Fin (activeBills st).length, ((activeBills st).get i).id = bid ∧
          score_match tol window t ((activeBills st).get i) = s ∧ 2/5 ≤ s ∧
          (∀ j : Fin (activeBills st).length,
            score_match tol window t ((activeBills st).get j) ≤ s) ∧
          (∀ j : Fin (activeBills st).length, (j : ℕ) < (i : ℕ) →
            score_match tol window t ((activeBills st).get j) < s)) ∧
      (find_best_match tol window t (activeBills st) = none → t' = t) := by
  intro t ht
  have hmem : t ∈ st.acctTxns := (List.mem_filter.mp ht).1
  have hunm : t.isMatched = false := by
    have hp := (List.mem_filter.mp ht).2
    simp only [Bool.and_eq_true] at hp
    simpa using hp.1
  have hnd2 : ((unmatchedScan st account_id).map (·.id)).Nodup :=
    hnd.sublist (List.Sublist.map _ (List.filter_sublist _))
  have hrow := applyMarksTxn_linkMarks tol window (activeBills st)
    (unmatchedScan st account_id) t hnd2 ht
  have hfound : txnById (link_transactions tol window account_id st).1 t.id =
      some (applyMarksTxn (linkMarks tol window (activeBills st)
        (unmatchedScan st account_id)) t) := by
    rw [link_transactions_state]
    unfold txnById
    show (applyMarks _ st.acctTxns).find? (fun x => x.id == t.id) = _
    rw [applyMarks_eq_map, find?_id_map _ (applyMarksTxn_id _) st.acctTxns t.id,
      find?_id_of_nodup st.acctTxns hnd t hmem]
    rfl
  refine ⟨_, hfound, ?_, ?_, ?_⟩
  · -- matched iff some bill clears the threshold
    cases hb : find_best_match tol window t (activeBills st) with
    | none =>
      rw [hb] at hrow
      rw [hrow, hunm]
      simp only [Bool.false_eq_true, false_iff]
      rintro ⟨b, hbmem, hbs⟩
      have hlt := (find_best_match_none_iff tol window t (activeBills st) hids).mp hb b hbmem
      exact absurd hbs (not_le.mpr hlt)
    | some p =>
      rw [hb] at hrow
      rw [hrow]
      simp only [markTxn, true_iff]
      obtain ⟨i, hid, hsc, hge, _, _⟩ :=
        find_best_match_some tol window t (activeBills st) hids p.1 p.2 (by rw [hb])
      exact ⟨(activeBills st).get i, List.get_mem _ _ _, hsc ▸ hge⟩
  · -- the chosen bill is the first highest-scoring one
    intro bid s hb
    rw [hb] at hrow
    obtain ⟨i, hid, hsc, hge, hmax, hfirst⟩ :=
      find_best_match_some tol window t (activeBills st) hids bid s hb
    exact ⟨by rw [hrow]; rfl, i, hid, hsc, hge, hmax, hfirst⟩
  · intro hb
    rw [hb] at hrow
    exact hrow

-- marking preserves an already-set matched flag
lemma applyMarksTxn_matched_mono (marks : List (PyStr × PyStr)) (t : Txn)
    (h : t.isMatched = true) : (applyMarksTxn marks t).isMatched = true := by
  induction marks generalizing t with
  | nil => exact h
  | cons m ms ih =>
    show (applyMarksTxn ms (if t.id == m.2 then markTxn m.1 t else t)).isMatched = true
    split
    · exact ih (markTxn m.1 t) rfl
    · exact ih t h

-- a row targeted by some mark ends up matched
lemma applyMarksTxn_matched_of_target (marks : List (PyStr × PyStr)) (t : Txn)
    (h : ∃ m ∈ marks, m.2 = t.id) : (applyMarksTxn marks t).isMatched = true := by
  induction marks generalizing t with
  | nil => rcases h with ⟨m, hm, _⟩; simp at hm
  | cons m ms ih =>
    show (applyMarksTxn ms (if t.id == m.2 then markTxn m.1 t else t)).isMatched = true
    rcases h with ⟨m', hm', hid⟩
    rcases List.mem_cons.mp hm' with h1 | h1
    · subst h1
      rw [if_pos (by simp [hid])]
      exact applyMarksTxn_matched_mono ms (markTxn m'.1 t) rfl
    · split
      · exact applyMarksTxn_matched_mono ms (markTxn m.1 t) rfl
      · exact ih t ⟨m', h1, hid⟩

/-- Claim C7: running `link_transactions` a second time on the store the
first run produced (with no intervening change and the same arguments)
matches nothing: the first run's matches are excluded from the second
unmatched scan, and every still-unmatched transaction still has no best
match. -/
theorem link_transactions_idempotent (tol window : Int) (account_id : Option PyStr) (st : Store) :
    (link_transactions tol window account_id
      (link_transactions tol window account_id st).1).2.matched = 0 := by
  set marks := linkMarks tol window (activeBills st) (unmatchedScan st account_id) with hmarks
  have hstate := link_transactions_state tol window account_id st
  set st1 := (link_transactions tol window account_id st).1 with hst1
  have hbills : activeBills st1 = activeBills st := by
    rw [hstate]
    rfl
  have hacct : st1.acctTxns = st.acctTxns.map (applyMarksTxn marks) := by
    rw [hstate]
    show applyMarks marks st.acctTxns = _
    exact applyMarks_eq_map marks st.acctTxns
  have hnone : ∀ x ∈ unmatchedScan st1 account_id,
      find_best_match tol window x (activeBills st) = none := by
    intro x hx
    have hxmem : x ∈ st1.acctTxns := (List.mem_filter.mp hx).1
    have hxpred := (List.mem_filter.mp hx).2
    simp only [Bool.and_eq_true] at hxpred
    obtain ⟨hxunm, hxacct⟩ := hxpred
    have hxunm2 : x.isMatched = false := by simpa using hxunm
    rw [hacct] at hxmem
    rcases List.mem_map.mp hxmem with ⟨t0, ht0, rfl⟩
    obtain ⟨hdesc, hamt, hdate, haccF⟩ := applyMarksTxn_fields marks t0
    have ht0unm : t0.isMatched = false := by
      by_contra hcon
      rw [applyMarksTxn_matched_mono marks t0 (by simpa using hcon)] at hxunm2
      exact absurd hxunm2 (by simp)
    have ht0items : t0 ∈ unmatchedScan st account_id := by
      refine List.mem_filter.mpr ⟨ht0, ?_⟩
      rw [Bool.and_eq_true]
      refine ⟨by simp [ht0unm], ?_⟩
      cases account_id with
      | none => rfl
      | some a =>
        rw [← haccF]
        exact hxacct
    have ht0none : find_best_match tol window t0 (activeBills st) = none := by
      by_contra hcon
      rcases Option.ne_none_iff_exists'.mp hcon with ⟨p, hp⟩
      have htarget : ∃ m ∈ marks, m.2 = (applyMarksTxn marks t0).id := by
        refine ⟨(p.1, t0.id), ?_, by rw [applyMarksTxn_id]⟩
        rw [hmarks]
        unfold linkMarks
        refine List.mem_filterMap.mpr ⟨t0, ht0items, ?_⟩
        rw [hp]
        rfl
      rw [applyMarksTxn_matched_of_target marks t0
        (by rwa [applyMarksTxn_id] at htarget)] at hxunm2
      exact absurd hxunm2 (by simp)
    rw [find_best_match_congr tol window t0 _ (activeBills st) hdesc hamt hdate]
    exact ht0none
  have hml := (link_transactions_matchList tol window account_id st1).2
  rw [hml]
  rw [hbills]
  have hempty : (unmatchedScan st1 account_id).filterMap
      (fun t => (find_best_match tol window t (activeBills st)).map
        (fun p => (⟨t.id, p.1, t.description, p.2⟩ : MatchEntry))) = [] := by
    rw [List.filterMap_eq_nil_iff]
    intro x hx
    rw [hnone x hx]
    rfl
  rw [hempty]
  rfl


/-- Witness for claim C5 at a concrete store: one active bill
(pattern `JCPL`, amount 14200, due day 15) and one unmatched matching
transaction. -/
theorem link_transactions_marks_best_witness :
    ∃ t', txnById (link_transactions 500 7 none storeLink).1 txnW.id = some t' ∧
      (t'.isMatched = true ↔ ∃ b ∈ activeBills storeLink, 2/5 ≤ score_match 500 7 txnW b) ∧
      (∀ bid s, find_best_match 500 7 txnW (activeBills storeLink) = some (bid, s) →
        t'.linkedBillId = some bid ∧
        ∃ i : Fin (activeBills storeLink).length, ((activeBills storeLink).get i).id = bid ∧
          score_match 500 7 txnW ((activeBills storeLink).get i) = s ∧ 2/5 ≤ s ∧
          (∀ j : Fin (activeBills storeLink).length,
            score_match 500 7 txnW ((activeBills storeLink).get j) ≤ s) ∧
          (∀ j : Fin (activeBills storeLink).length, (j : ℕ) < (i : ℕ) →
            score_match 500 7 txnW ((activeBills storeLink).get j) < s)) ∧
      (find_best_match 500 7 txnW (activeBills storeLink) = none → t' = txnW) :=
  link_transactions_marks_best 500 7 none storeLink (by decide) (by decide) txnW (by decide)

/-! ## Claim C9 — median-interval frequency classification -/

-- the four frequency buckets are pairwise disjoint
lemma freqBuckets_disjoint : ∀ e1 ∈ freqBuckets, ∀ e2 ∈ freqBuckets, ∀ m : Int,
    e1.2.1 ≤ m → m ≤ e1.2.2 → e2.2.1 ≤ m → m ≤ e2.2.2 → e1 = e2 := by
  intro e1 h1 e2 h2 m ha hb hc hd
  fin_cases h1 <;> fin_cases h2 <;> first | rfl | (exfalso; dsimp only at ha hb hc hd; omega)

-- a successful classification means the median lies in the named bucket
lemma classify_frequency_some (intervals : List Int) (f : PyStr)
    (h : classify_frequency intervals = some f) :
    ∃ e ∈ freqBuckets, e.1 = f ∧
      e.2.1 ≤ medianInterval intervals ∧ medianInterval intervals ≤ e.2.2 := by
  unfold classify_frequency at h
  by_cases hie : intervals.isEmpty
  · rw [if_pos hie] at h; simp at h
  · rw [if_neg hie] at h
    cases hf : freqBuckets.find? (fun b =>
        decide (b.2.1 ≤ medianInterval intervals) && decide (medianInterval intervals ≤ b.2.2)) with
    | none => rw [hf] at h; simp at h
    | some e =>
      rw [hf] at h
      simp only [Option.some.injEq] at h
      have hmem := List.mem_of_find?_eq_some hf
      have hp := List.find?_some hf
      simp only [Bool.and_eq_true, decide_eq_true_eq] at hp
      exact ⟨e, hmem, h, hp.1, hp.2⟩

-- when the median lies in no bucket, classification fails
lemma classify_frequency_none (intervals : List Int) (hne : ¬intervals.isEmpty)
    (h : ∀ e ∈ freqBuckets, ¬(e.2.1 ≤ medianInterval intervals ∧ medianInterval intervals ≤ e.2.2)) :
    classify_frequency intervals = none := by
  unfold classify_frequency
  rw [if_neg hne]
  have hf : freqBuckets.find? (fun b =>
      decide (b.2.1 ≤ medianInterval intervals) && decide (medianInterval intervals ≤ b.2.2)) = none := by
    rw [List.find?_eq_none]
    intro e he
    simp only [Bool.and_eq_true, decide_eq_true_eq, not_and]
    intro h1 h2
    exact h e he ⟨h1, h2⟩
  rw [hf]

/-- Claim C9: for a vendor group the detector keeps, the occurrences are
sorted by their date strings, consecutive day intervals are computed from
the parsed dates in that order, and a produced candidate's frequency
names the unique bucket whose inclusive range contains the median
interval (`sorted(intervals)[len(intervals) // 2]`, the upper-middle
element); when the median lies in no bucket (and intervals exist) the
candidate is discarded. -/
theorem detect_group_median_bucket (today : PyDate) (vendor : PyStr)
    (txns : List (Int × PyStr)) (dates : List PyDate)
    (hp : (sortBy (fun a b => pyStrLe a.2 b.2) txns).mapM
      (fun t => parseIsoDate (t.2.take 10)) = some dates) :
    ∀ ords intervals, ords = dates.map (fun d => (toOrdinal d : Int)) →
    intervals = List.zipWith (fun a b => b - a) ords ords.tail →
    (∀ sub, detectGroup today vendor txns = some (some sub) →
      ∃ e ∈ freqBuckets, e.1 = sub.frequency ∧
        e.2.1 ≤ medianInterval intervals ∧ medianInterval intervals ≤ e.2.2 ∧
        ∀ e2 ∈ freqBuckets,
          e2.2.1 ≤ medianInterval intervals → medianInterval intervals ≤ e2.2.2 → e2 = e) ∧
    (intervals ≠ [] →
      (∀ e ∈ freqBuckets,
        ¬(e.2.1 ≤ medianInterval intervals ∧ medianInterval intervals ≤ e.2.2)) →
      detectGroup today vendor txns = some none) := by
  intro ords intervals hords hints
  have hdg : detectGroup today vendor txns =
      some (detectGroupKernel today vendor (sortBy (fun a b => pyStrLe a.2 b.2) txns) dates) := by
    unfold detectGroup
    dsimp only
    rw [hp]
  constructor
  · intro sub hsub
    rw [hdg] at hsub
    simp only [Option.some.injEq] at hsub
    unfold detectGroupKernel at hsub
    dsimp only at hsub
    rw [← hords, ← hints] at hsub
    by_cases hie : intervals.isEmpty
    · rw [if_pos hie] at hsub; simp at hsub
    · rw [if_neg hie] at hsub
      cases hcf : classify_frequency intervals with
      | none => rw [hcf] at hsub; simp at hsub
      | some frequency =>
        rw [hcf] at hsub
        simp only [] at hsub
        split at hsub
        · simp at hsub
        · simp only [Option.some.injEq] at hsub
          have hfreq : sub.frequency = frequency := by rw [← hsub]
          obtain ⟨e, hmem, he1, hlo, hhi⟩ := classify_frequency_some intervals frequency hcf
          refine ⟨e, hmem, by rw [hfreq, he1], hlo, hhi, ?_⟩
          intro e2 hm2 h2lo h2hi
          exact freqBuckets_disjoint e2 hm2 e hmem (medianInterval intervals) h2lo h2hi hlo hhi
  · intro hne hnob
    rw [hdg]
    unfold detectGroupKernel
    dsimp only
    rw [← hords, ← hints]
    have hie : ¬intervals.isEmpty := by simpa [List.isEmpty_iff] using hne
    rw [if_neg hie, classify_frequency_none intervals hie hnob]


/-- Witness for claim C9 at a concrete vendor group: three occurrences of
one vendor, 30 days apart, whose interval list is `[30, 30]`. -/
theorem detect_group_median_bucket_witness :
    (∀ sub, detectGroup ⟨2025, 5, 15⟩ ("NETFLIX.COM".data)
        [(1599, "2025-01-01".data), (1599, "2025-01-31".data), (1599, "2025-03-02".data)] =
        some (some sub) →
      ∃ e ∈ freqBuckets, e.1 = sub.frequency ∧
        e.2.1 ≤ medianInterval [30, 30] ∧ medianInterval [30, 30] ≤ e.2.2 ∧
        ∀ e2 ∈ freqBuckets,
          e2.2.1 ≤ medianInterval [30, 30] → medianInterval [30, 30] ≤ e2.2.2 → e2 = e) ∧
    (([30, 30] : List Int) ≠ [] →
      (∀ e ∈ freqBuckets,
        ¬(e.2.1 ≤ medianInterval [30, 30] ∧ medianInterval [30, 30] ≤ e.2.2)) →
      detectGroup ⟨2025, 5, 15⟩ ("NETFLIX.COM".data)
        [(1599, "2025-01-01".data), (1599, "2025-01-31".data), (1599, "2025-03-02".data)] =
        some none) :=
  detect_group_median_bucket ⟨2025, 5, 15⟩ ("NETFLIX.COM".data)
    [(1599, "2025-01-01".data), (1599, "2025-01-31".data), (1599, "2025-03-02".data)]
    [⟨2025, 1, 1⟩, ⟨2025, 1, 31⟩, ⟨2025, 3, 2⟩] (by decide)
    (([⟨2025, 1, 1⟩, ⟨2025, 1, 31⟩, ⟨2025, 3, 2⟩] : List PyDate).map
      (fun d => (toOrdinal d : Int)))
    [30, 30] rfl (by decide)

/-! ## Claim C8 — idempotence of detection plus confirmation -/

-- stable insertion keeps the multiset of elements
lemma insertBy_perm (le : α → α → Bool) (x : α) : ∀ (l : List α), (insertBy le x l).Perm (x :: l) := by
  intro l
  induction l with
  | nil => exact List.Perm.refl _
  | cons y ys ih =>
    show (if le x y then x :: y :: ys else y :: insertBy le x ys).Perm (x :: y :: ys)
    split
    · exact List.Perm.refl _
    · exact (List.Perm.cons y ih).trans (List.Perm.swap x y ys)

lemma sortBy_perm (le : α → α → Bool) : ∀ (l : List α), (sortBy le l).Perm l := by
  intro l
  induction l with
  | nil => exact List.Perm.refl _
  | cons x xs ih =>
    exact (insertBy_perm le x (sortBy le xs)).trans (List.Perm.cons x ih)

-- a successful Option-mapM relates input and output pointwise
lemma mapM_option_forall2 {α β : Type _} (f : α → Option β) :
    ∀ (l : List α) (r : List β), l.mapM f = some r →
      List.Forall₂ (fun a b => f a = some b) l r := by
  intro l
  induction l with
  | nil =>
    intro r h
    rw [List.mapM_nil] at h
    cases h
    exact List.Forall₂.nil
  | cons a l ih =>
    intro r h
    rw [List.mapM_cons] at h
    cases hfa : f a with
    | none => rw [hfa] at h; cases h
    | some b =>
      rw [hfa] at h
      cases hml : l.mapM f with
      | none => rw [hml] at h; cases h
      | some r2 =>
        rw [hml] at h
        cases h
        exact List.Forall₂.cons hfa (ih r2 hml)

-- a constant-successful function makes mapM succeed with the mapped list
lemma mapM_option_const {α β : Type _} (f : α → Option β) (c : β) :
    ∀ (l : List α), (∀ a ∈ l, f a = some c) → l.mapM f = some (l.map fun _ => c) := by
  intro l
  induction l with
  | nil => intro _; rw [List.mapM_nil]; rfl
  | cons a l ih =>
    intro h
    rw [List.mapM_cons, h a (by simp), ih (fun x hx => h x (by simp [hx]))]
    rfl

-- membership transfer along a Forall₂
lemma forall2_mem_right {R : α → β → Prop} :
    ∀ {l : List α} {r : List β}, List.Forall₂ R l r → ∀ b ∈ r, ∃ a ∈ l, R a b := by
  intro l r h
  induction h with
  | nil => intro b hb; simp at hb
  | cons hab htl ih =>
    intro b hb
    rcases List.mem_cons.mp hb with h1 | h1
    · subst h1; exact ⟨_, by simp, hab⟩
    · rcases ih b h1 with ⟨a, ha, hr⟩
      exact ⟨a, by simp [ha], hr⟩

lemma forall2_mem_left {R : α → β → Prop} :
    ∀ {l : List α} {r : List β}, List.Forall₂ R l r → ∀ a ∈ l, ∃ b ∈ r, R a b := by
  intro l r h
  induction h with
  | nil => intro a ha; simp at ha
  | cons hab htl ih =>
    intro a ha
    rcases List.mem_cons.mp ha with h1 | h1
    · subst h1; exact ⟨_, by simp, hab⟩
    · rcases ih a h1 with ⟨b, hb, hr⟩
      exact ⟨b, by simp [hb], hr⟩

-- keys of the vendor grouping
lemma insertGroup_keys (v : PyStr) (x : Int × PyStr) :
    ∀ (acc : List (PyStr × List (Int × PyStr))),
    (insertGroup v x acc).map (·.1) =
      if v ∈ acc.map (·.1) then acc.map (·.1) else acc.map (·.1) ++ [v] := by
  intro acc
  induction acc with
  | nil => simp [insertGroup]
  | cons g rest ih =>
    show (if g.1 == v then (g.1, g.2 ++ [x]) :: rest else g :: insertGroup v x rest).map (·.1) = _
    by_cases hgv : g.1 = v
    · rw [if_pos (by simp [hgv])]
      rw [List.map_cons, if_pos (by simp [hgv])]
      rfl
    · rw [if_neg (by simp [hgv])]
      rw [List.map_cons, ih]
      by_cases hv : v ∈ rest.map (·.1)
      · rw [if_pos hv, if_pos (by simp [hv])]
        rfl
      · rw [if_neg hv, if_neg ?_]
        · simp
        · simp only [List.map_cons, List.mem_cons]
          rintro (h | h)
          · exact hgv h.symm
          · exact hv h

lemma groupByVendor_keys_nodup_aux :
    ∀ (rows : List DetectRow) (acc : List (PyStr × List (Int × PyStr))),
    (acc.map (·.1)).Nodup → ((rows.foldl (fun a r => insertGroup r.1 r.2 a) acc).map (·.1)).Nodup := by
  intro rows
  induction rows with
  | nil => intro acc h; exact h
  | cons r rest ih =>
    intro acc h
    show ((rest.foldl _ (insertGroup r.1 r.2 acc)).map (·.1)).Nodup
    refine ih _ ?_
    rw [insertGroup_keys]
    split
    · exact h
    · rename_i hnotmem
      rw [List.nodup_append]
      refine ⟨h, by simp, ?_⟩
      intro a ha hb
      rw [List.mem_singleton] at hb
      subst hb
      exact hnotmem ha

lemma groupByVendor_keys_nodup (rows : List DetectRow) :
    ((groupByVendor rows).map (·.1)).Nodup :=
  groupByVendor_keys_nodup_aux rows [] (by simp)

-- group keys come from row keys
lemma groupByVendor_keys_sub_aux :
    ∀ (rows : List DetectRow) (acc : List (PyStr × List (Int × PyStr))) (k : PyStr),
    k ∈ (rows.foldl (fun a r => insertGroup r.1 r.2 a) acc).map (·.1) →
      k ∈ acc.map (·.1) ∨ ∃ r ∈ rows, r.1 = k := by
  intro rows
  induction rows with
  | nil => intro acc k h; exact Or.inl h
  | cons r rest ih =>
    intro acc k h
    rcases ih (insertGroup r.1 r.2 acc) k h with h1 | ⟨r2, hr2, hk⟩
    · rw [insertGroup_keys] at h1
      split at h1
      · exact Or.inl h1
      · rcases List.mem_append.mp h1 with h2 | h2
        · exact Or.inl h2
        · refine Or.inr ⟨r, by simp, ?_⟩
          rw [List.mem_singleton] at h2
          exact h2.symm
    · exact Or.inr ⟨r2, by simp [hr2], hk⟩

lemma groupByVendor_keys_sub (rows : List DetectRow) (k : PyStr)
    (h : k ∈ (groupByVendor rows).map (·.1)) : ∃ r ∈ rows, r.1 = k := by
  rcases groupByVendor_keys_sub_aux rows [] k h with h1 | h1
  · simp at h1
  · exact h1


-- eliminating a successful detection run
lemma detect_some_elim (today : PyDate) (months : Nat) (st : Store) (cands : List Subscription)
    (h : detect_subscriptions today months st = some cands) :
    ∃ results, (detectKept today months st).mapM (fun g => detectGroup today g.1 g.2) =
        some results ∧
      cands = sortBy (fun a b => b.confidence ≤ a.confidence) (results.filterMap id) := by
  unfold detect_subscriptions at h
  cases hm : (detectKept today months st).mapM (fun g => detectGroup today g.1 g.2) with
  | none => rw [hm] at h; cases h
  | some results =>
    rw [hm] at h
    simp only [Option.some.injEq] at h
    exact ⟨results, rfl, h.symm⟩

-- every produced candidate carries its vendor key and is active
lemma detectGroup_some_facts (today : PyDate) (vendor : PyStr) (txns : List (Int × PyStr))
    (sub : Subscription) (h : detectGroup today vendor txns = some (some sub)) :
    sub.matchPattern = vendor ∧ sub.isActive = true := by
  unfold detectGroup at h
  dsimp only at h
  cases hm : (sortBy (fun a b => pyStrLe a.2 b.2) txns).mapM
      (fun t => parseIsoDate (t.2.take 10)) with
  | none => rw [hm] at h; cases h
  | some dates =>
    rw [hm] at h
    simp only [Option.some.injEq] at h
    unfold detectGroupKernel at h
    dsimp only at h
    split at h
    · cases h
    · split at h
      · cases h
      · split at h
        · cases h
        · simp only [Option.some.injEq] at h
          rw [← h]
          exact ⟨rfl, rfl⟩

-- the kept-group facts behind each candidate
lemma mem_cands_facts (today : PyDate) (months : Nat) (st : Store) (cands : List Subscription)
    (h : detect_subscriptions today months st = some cands) :
    ∀ sub ∈ cands, ∃ g ∈ detectKept today months st, g.1 = sub.matchPattern ∧
      sub.isActive = true ∧ detectGroup today g.1 g.2 = some (some sub) := by
  obtain ⟨results, hm, hc⟩ := detect_some_elim today months st cands h
  intro sub hsub
  rw [hc] at hsub
  have hsub2 : sub ∈ results.filterMap id :=
    (sortBy_perm (fun a b => b.confidence ≤ a.confidence) _).mem_iff.mp hsub
  rcases List.mem_filterMap.mp hsub2 with ⟨o, ho, hid⟩
  have ho2 : o = some sub := by simpa using hid
  subst ho2
  obtain ⟨g, hg, hrel⟩ := forall2_mem_right (mapM_option_forall2 _ _ _ hm) (some sub) ho
  obtain ⟨hpat, hact⟩ := detectGroup_some_facts today g.1 g.2 sub hrel
  exact ⟨g, hg, hpat.symm, hact, hrel⟩

-- kept keys are non-empty and not excluded
lemma detectKept_facts (today : PyDate) (months : Nat) (st : Store) :
    ∀ g ∈ detectKept today months st,
      g.1 ≠ [] ∧ (detectExcluded st).contains g.1 = false ∧ 3 ≤ g.2.length := by
  intro g hg
  unfold detectKept at hg
  have hmem := (List.mem_filter.mp hg).1
  have hpred := (List.mem_filter.mp hg).2
  simp only [Bool.and_eq_true, Bool.not_eq_true', decide_eq_true_eq] at hpred
  refine ⟨?_, hpred.1, hpred.2⟩
  have hk : g.1 ∈ (detectGroups today months st).map (·.1) := List.mem_map_of_mem (·.1) hmem
  unfold detectGroups at hk
  obtain ⟨r, hr, hrk⟩ := groupByVendor_keys_sub _ _ hk
  unfold detectRows at hr
  have := (List.mem_filter.mp hr).2
  rw [hrk] at this
  simpa [List.isEmpty_iff] using this

-- the candidate patterns of one run are pairwise distinct
lemma results_pats_sublist (today : PyDate) :
    ∀ {kept : List (PyStr × List (Int × PyStr))} {results : List (Option Subscription)},
    List.Forall₂ (fun g o => detectGroup today g.1 g.2 = some o) kept results →
    ((results.filterMap id).map (·.matchPattern)).Sublist (kept.map (·.1)) := by
  intro kept results h
  induction h with
  | nil => exact List.Sublist.refl _
  | cons hab htl ih =>
    rename_i a b l1 l2
    cases b with
    | none =>
      show ((l2.filterMap id).map (·.matchPattern)).Sublist (a.1 :: l1.map (·.1))
      exact ih.cons _
    | some sub =>
      show (sub.matchPattern :: (l2.filterMap id).map (·.matchPattern)).Sublist
        (a.1 :: l1.map (·.1))
      rw [(detectGroup_some_facts today a.1 a.2 sub hab).1]
      exact ih.cons₂ _

-- the kept keys are pairwise distinct
lemma detectKept_keys_nodup (today : PyDate) (months : Nat) (st : Store) :
    ((detectKept today months st).map (·.1)).Nodup := by
  unfold detectKept
  refine List.Sublist.nodup (List.Sublist.map _ (List.filter_sublist _)) ?_
  unfold detectGroups
  exact groupByVendor_keys_nodup _

-- the candidate patterns of one run are pairwise distinct
lemma cands_pats_nodup (today : PyDate) (months : Nat) (st : Store) (cands : List Subscription)
    (h : detect_subscriptions today months st = some cands) :
    (cands.map (·.matchPattern)).Nodup := by
  obtain ⟨results, hm, hc⟩ := detect_some_elim today months st cands h
  rw [hc]
  have hperm := (sortBy_perm (fun a b => b.confidence ≤ a.confidence)
    (results.filterMap id)).map (·.matchPattern)
  rw [hperm.nodup_iff]
  exact List.Sublist.nodup
    (results_pats_sublist today (mapM_option_forall2 _ _ _ hm))
    (detectKept_keys_nodup today months st)


-- the confirm loop never touches the other tables
lemma confirm_fold_fields : ∀ (cands : List Subscription) (acc : Store × Nat),
    (cands.foldl confirmStep acc).1.acctTxns = acc.1.acctTxns ∧
    (cands.foldl confirmStep acc).1.cardTxns = acc.1.cardTxns ∧
    (cands.foldl confirmStep acc).1.bills = acc.1.bills := by
  intro cands
  induction cands with
  | nil => intro acc; exact ⟨rfl, rfl, rfl⟩
  | cons c rest ih =>
    intro acc
    rw [List.foldl_cons]
    obtain ⟨h1, h2, h3⟩ := ih (confirmStep acc c)
    rw [h1, h2, h3]
    unfold confirmStep
    cases find_by_match_pattern acc.1 c.matchPattern <;> exact ⟨rfl, rfl, rfl⟩

-- the confirm loop only appends subscriptions
lemma confirm_fold_subs_append : ∀ (cands : List Subscription) (acc : Store × Nat),
    ∃ l, (cands.foldl confirmStep acc).1.subs = acc.1.subs ++ l ∧ ∀ c ∈ l, c ∈ cands := by
  intro cands
  induction cands with
  | nil => intro acc; exact ⟨[], by simp, by simp⟩
  | cons c rest ih =>
    intro acc
    rw [List.foldl_cons]
    cases hfb : find_by_match_pattern acc.1 c.matchPattern with
    | some s0 =>
      have hstep : confirmStep acc c = acc := by
        unfold confirmStep
        rw [hfb]
      rw [hstep]
      obtain ⟨l, hl, hmem⟩ := ih acc
      exact ⟨l, hl, fun x hx => by simp [hmem x hx]⟩
    | none =>
      have hstep : confirmStep acc c = ({ acc.1 with subs := acc.1.subs ++ [c] }, acc.2 + 1) := by
        unfold confirmStep
        rw [hfb]
      rw [hstep]
      obtain ⟨l, hl, hmem⟩ := ih ({ acc.1 with subs := acc.1.subs ++ [c] }, acc.2 + 1)
      refine ⟨c :: l, ?_, ?_⟩
      · rw [hl]
        simp
      · intro x hx
        rcases List.mem_cons.mp hx with h1 | h1
        · simp [h1]
        · simp [hmem x h1]

-- a missing pattern is exactly a zero active count
lemma find_by_none_iff_count (st : Store) (v : PyStr) :
    find_by_match_pattern st v = none ↔ countActiveSubs st v = 0 := by
  unfold find_by_match_pattern countActiveSubs
  rw [List.find?_eq_none, List.length_eq_zero, List.filter_eq_nil_iff]
  constructor
  · intro h s hs
    simp only [Bool.and_eq_true, not_and]
    intro hact
    exact h s (List.mem_filter.mpr ⟨hs, hact⟩)
  · intro h s hs
    have hs1 := (List.mem_filter.mp hs).1
    have hs2 := (List.mem_filter.mp hs).2
    have := h s hs1
    simp only [Bool.and_eq_true, not_and] at this
    exact this hs2

-- appending one subscription changes exactly its own pattern count
lemma countActiveSubs_append_one (st : Store) (c : Subscription) (v : PyStr)
    (hact : c.isActive = true) :
    countActiveSubs { st with subs := st.subs ++ [c] } v =
      countActiveSubs st v + (if c.matchPattern = v then 1 else 0) := by
  unfold countActiveSubs
  show (List.filter _ (st.subs ++ [c])).length = _
  rw [List.filter_append, List.length_append]
  congr 1
  by_cases hp : c.matchPattern = v
  · rw [if_pos hp]
    simp [hact, hp]
  · rw [if_neg hp]
    simp [hp]

-- the count after confirmation: one per new vendor pattern, never two
lemma confirm_detected_count : ∀ (cands : List Subscription) (st : Store) (v : PyStr),
    (∀ c ∈ cands, c.isActive = true) →
    countActiveSubs (confirm_detected cands st).1 v =
      if v ∈ cands.map (·.matchPattern) ∧ countActiveSubs st v = 0 then 1
      else countActiveSubs st v := by
  intro cands
  induction cands with
  | nil =>
    intro st v _
    rw [if_neg (by simp)]
    rfl
  | cons c rest ih =>
    intro st v hact
    have hc : confirm_detected (c :: rest) st = rest.foldl confirmStep (confirmStep (st, 0) c) :=
      List.foldl_cons _ _
    cases hfb : find_by_match_pattern st c.matchPattern with
    | some s0 =>
      have hcount : countActiveSubs st c.matchPattern ≠ 0 := by
        intro hcon
        rw [(find_by_none_iff_count st c.matchPattern).mpr hcon] at hfb
        cases hfb
      have hstep : confirmStep (st, 0) c = (st, 0) := by
        unfold confirmStep
        rw [hfb]
      rw [hc, hstep]
      have ihv := ih st v (fun x hx => hact x (by simp [hx]))
      show countActiveSubs (confirm_detected rest st).1 v = _
      rw [ihv]
      by_cases hv : v = c.matchPattern
      · subst hv
        rw [if_neg (by intro hcon; exact hcount hcon.2), if_neg (by intro hcon; exact hcount hcon.2)]
      · by_cases hmem : v ∈ rest.map (·.matchPattern)
        · have : v ∈ (c :: rest).map (·.matchPattern) := by simp [hmem]
          by_cases h0 : countActiveSubs st v = 0
          · rw [if_pos ⟨hmem, h0⟩, if_pos ⟨this, h0⟩]
          · rw [if_neg (fun hcon => h0 hcon.2), if_neg (fun hcon => h0 hcon.2)]
        · have hnot : v ∉ (c :: rest).map (·.matchPattern) := by
            simp only [List.map_cons, List.mem_cons]
            rintro (h | h)
            · exact hv h
            · exact hmem h
          rw [if_neg (fun hcon => hmem hcon.1), if_neg (fun hcon => hnot hcon.1)]
    | none =>
      have hcount : countActiveSubs st c.matchPattern = 0 :=
        (find_by_none_iff_count st c.matchPattern).mp hfb
      have hstep : confirmStep (st, 0) c = ({ st with subs := st.subs ++ [c] }, 1) := by
        unfold confirmStep
        rw [hfb]
      have hactc : c.isActive = true := hact c (by simp)
      set st' : Store := { st with subs := st.subs ++ [c] } with hst'
      have hfst : (rest.foldl confirmStep (st', 1)).1 = (confirm_detected rest st').1 := by
        have h1 : ∀ (l : List Subscription) (s : Store) (n m : Nat),
            (l.foldl confirmStep (s, n)).1 = (l.foldl confirmStep (s, m)).1 := by
          intro l
          induction l with
          | nil => intro s n m; rfl
          | cons x xs ihx =>
            intro s n m
            rw [List.foldl_cons, List.foldl_cons]
            unfold confirmStep
            cases find_by_match_pattern s x.matchPattern <;> exact ihx _ _ _
        exact h1 rest st' 1 0
      rw [hc, hstep]
      have hgoal : countActiveSubs (rest.foldl confirmStep (st', 1)).1 v =
          countActiveSubs (confirm_detected rest st').1 v := by rw [hfst]
      rw [hgoal, ih st' v (fun x hx => hact x (by simp [hx]))]
      have hcv : countActiveSubs st' v =
          countActiveSubs st v + (if c.matchPattern = v then 1 else 0) :=
        countActiveSubs_append_one st c v hactc
      by_cases hv : c.matchPattern = v
      · have h0 : countActiveSubs st v = 0 := by rw [← hv]; exact hcount
        have h1 : countActiveSubs st' v = 1 := by rw [hcv, h0, if_pos hv]
        rw [if_neg (by rw [h1]; rintro ⟨_, hcon⟩; exact one_ne_zero hcon), h1]
        rw [if_pos ⟨by simp [hv], h0⟩]
      · have h1 : countActiveSubs st' v = countActiveSubs st v := by
          rw [hcv, if_neg hv]
          omega
        rw [h1]
        have hiff : v ∈ (c :: rest).map (·.matchPattern) ↔ v ∈ rest.map (·.matchPattern) := by
          simp only [List.map_cons, List.mem_cons]
          constructor
          · rintro (h | h)
            · exact absurd h.symm hv
            · exact h
          · exact Or.inr
        by_cases hmem : v ∈ rest.map (·.matchPattern)
        · by_cases h0 : countActiveSubs st v = 0
          · rw [if_pos ⟨hmem, h0⟩, if_pos ⟨hiff.mpr hmem, h0⟩]
          · rw [if_neg (fun hcon => h0 hcon.2), if_neg (fun hcon => h0 hcon.2)]
        · rw [if_neg (fun hcon => hmem hcon.1), if_neg (fun hcon => hmem (hiff.mp hcon.1))]


-- created count = growth of the subscriptions table
lemma confirm_fold_counter : ∀ (cands : List Subscription) (st : Store) (n : Nat),
    (cands.foldl confirmStep (st, n)).1.subs.length + n =
      st.subs.length + (cands.foldl confirmStep (st, n)).2 := by
  intro cands
  induction cands with
  | nil => intro st n; rfl
  | cons c rest ih =>
    intro st n
    rw [List.foldl_cons]
    cases hfb : find_by_match_pattern st c.matchPattern with
    | some s0 =>
      have hstep : confirmStep (st, n) c = (st, n) := by
        unfold confirmStep
        rw [hfb]
      rw [hstep]
      exact ih st n
    | none =>
      have hstep : confirmStep (st, n) c = ({ st with subs := st.subs ++ [c] }, n + 1) := by
        unfold confirmStep
        rw [hfb]
      rw [hstep]
      have := ih { st with subs := st.subs ++ [c] } (n + 1)
      simp only [List.length_append, List.length_singleton] at this
      omega

lemma detectRows_congr (st1 st2 : Store) (cutoff : PyStr)
    (h1 : st1.acctTxns = st2.acctTxns) (h2 : st1.cardTxns = st2.cardTxns) :
    detectRows st1 cutoff = detectRows st2 cutoff := by
  unfold detectRows
  rw [h1, h2]

-- a nonzero active count puts a non-empty pattern in the exclusion list
lemma mem_get_all_of_count (st : Store) (v : PyStr) (hv : v ≠ [])
    (h : countActiveSubs st v ≠ 0) : v ∈ get_all_match_patterns st := by
  unfold countActiveSubs at h
  have hne : st.subs.filter (fun s => s.isActive && s.matchPattern == v) ≠ [] := by
    intro hcon
    rw [hcon] at h
    exact h rfl
  obtain ⟨s, hs⟩ := List.exists_mem_of_ne_nil _ hne
  have hs1 := (List.mem_filter.mp hs).1
  have hs2 := (List.mem_filter.mp hs).2
  simp only [Bool.and_eq_true, beq_iff_eq] at hs2
  unfold get_all_match_patterns
  refine List.mem_filter.mpr ⟨?_, by simpa [List.isEmpty_iff] using hv⟩
  rw [← hs2.2]
  exact List.mem_map_of_mem (·.matchPattern) (List.mem_filter.mpr ⟨hs1, hs2.1⟩)

-- an unexcluded non-empty vendor has no active subscription yet
lemma count_zero_of_not_excluded (st : Store) (v : PyStr) (hv : v ≠ [])
    (h : (detectExcluded st).contains v = false) : countActiveSubs st v = 0 := by
  by_contra hcon
  have hmem : v ∈ detectExcluded st :=
    List.mem_append.mpr (Or.inl (mem_get_all_of_count st v hv hcon))
  rw [show (detectExcluded st).contains v = (detectExcluded st).elem v from rfl] at h
  rw [(List.elem_iff).mpr hmem] at h
  cases h

-- confirming candidates only grows the exclusion list
lemma detectExcluded_mono (cands : List Subscription) (st : Store) (v : PyStr)
    (h : v ∈ detectExcluded st) : v ∈ detectExcluded (confirm_detected cands st).1 := by
  obtain ⟨l, hl, _⟩ := confirm_fold_subs_append cands (st, 0)
  obtain ⟨_, _, hbills⟩ := confirm_fold_fields cands (st, 0)
  rcases List.mem_append.mp h with h1 | h1
  · refine List.mem_append.mpr (Or.inl ?_)
    unfold get_all_match_patterns at h1 ⊢
    have hs := (List.mem_filter.mp h1).1
    have hne := (List.mem_filter.mp h1).2
    rcases List.mem_map.mp hs with ⟨s, hsmem, hsp⟩
    refine List.mem_filter.mpr ⟨?_, hne⟩
    rw [← hsp]
    have hsf : s ∈ (confirm_detected cands st).1.subs.filter (·.isActive) := by
      rw [show (confirm_detected cands st).1.subs = (cands.foldl confirmStep (st, 0)).1.subs
        from rfl, hl, List.filter_append]
      exact List.mem_append.mpr (Or.inl (by simpa using hsmem))
    exact List.mem_map_of_mem (fun x : Subscription => x.matchPattern) hsf
  · refine List.mem_append.mpr (Or.inr ?_)
    unfold billPatternsUpper at h1 ⊢
    rw [show (confirm_detected cands st).1.bills = (cands.foldl confirmStep (st, 0)).1.bills
      from rfl, hbills]
    exact h1

/-- Claim C8: one detection-and-confirmation run creates exactly one
subscription per detected vendor key (each had none before), leaves every
other vendor's count unchanged, and returns exactly the number of rows
created; a second detection run over the resulting store detects nothing,
so the second confirmation creates nothing — never a second subscription
for the same vendor key. -/
theorem detect_confirm_idempotent (today : PyDate) (months : Nat) (st : Store)
    (cands1 : List Subscription) (h1 : detect_subscriptions today months st = some cands1) :
    (confirm_detected cands1 st).1.subs.length =
      st.subs.length + (confirm_detected cands1 st).2 ∧
    (∀ v : PyStr, v ∈ cands1.map (·.matchPattern) →
      countActiveSubs (confirm_detected cands1 st).1 v = 1 ∧ countActiveSubs st v = 0) ∧
    (∀ v : PyStr, v ∉ cands1.map (·.matchPattern) →
      countActiveSubs (confirm_detected cands1 st).1 v = countActiveSubs st v) ∧
    detect_subscriptions today months (confirm_detected cands1 st).1 = some [] ∧
    (confirm_detected [] (confirm_detected cands1 st).1).1 = (confirm_detected cands1 st).1 ∧
    (confirm_detected [] (confirm_detected cands1 st).1).2 = 0 := by
  have hact : ∀ c ∈ cands1, c.isActive = true := by
    intro c hc
    obtain ⟨g, _, _, ha, _⟩ := mem_cands_facts today months st cands1 h1 c hc
    exact ha
  have hzero : ∀ v ∈ cands1.map (·.matchPattern), countActiveSubs st v = 0 ∧ v ≠ [] := by
    intro v hv
    rcases List.mem_map.mp hv with ⟨sub, hsub, hsp⟩
    obtain ⟨g, hg, hgp, _, _⟩ := mem_cands_facts today months st cands1 h1 sub hsub
    obtain ⟨hne, hnc, _⟩ := detectKept_facts today months st g hg
    have hgv : g.1 = v := by rw [hgp, hsp]
    rw [← hgv]
    exact ⟨count_zero_of_not_excluded st g.1 hne hnc, hne⟩
  refine ⟨?_, ?_, ?_, ?_, rfl, rfl⟩
  · have := confirm_fold_counter cands1 st 0
    simpa using this
  · intro v hv
    rw [confirm_detected_count cands1 st v hact]
    rw [if_pos ⟨hv, (hzero v hv).1⟩]
    exact ⟨rfl, (hzero v hv).1⟩
  · intro v hv
    rw [confirm_detected_count cands1 st v hact]
    rw [if_neg (fun hcon => hv hcon.1)]
  · -- the second detection run finds nothing
    obtain ⟨hatxns, hctxns, hbills⟩ := confirm_fold_fields cands1 (st, 0)
    have ha2 : (confirm_detected cands1 st).1.acctTxns = st.acctTxns := hatxns
    have hc2 : (confirm_detected cands1 st).1.cardTxns = st.cardTxns := hctxns
    have hgroups : detectGroups today months (confirm_detected cands1 st).1 =
        detectGroups today months st := by
      unfold detectGroups
      rw [detectRows_congr (confirm_detected cands1 st).1 st _ ha2 hc2]
    obtain ⟨results, hm, hc⟩ := detect_some_elim today months st cands1 h1
    have hfa := mapM_option_forall2 _ _ _ hm
    have hkept2 : ∀ g ∈ detectKept today months (confirm_detected cands1 st).1,
        detectGroup today g.1 g.2 = some none := by
      intro g hg
      unfold detectKept at hg
      have hmem := (List.mem_filter.mp hg).1
      have hpred := (List.mem_filter.mp hg).2
      simp only [Bool.and_eq_true, Bool.not_eq_true', decide_eq_true_eq] at hpred
      rw [hgroups] at hmem
      have hg1 : g ∈ detectKept today months st := by
        unfold detectKept
        refine List.mem_filter.mpr ⟨hmem, ?_⟩
        simp only [Bool.and_eq_true, Bool.not_eq_true', decide_eq_true_eq]
        refine ⟨?_, hpred.2⟩
        by_contra hcon
        have hcon2 : (detectExcluded st).contains g.1 = true := by
          cases hx : (detectExcluded st).contains g.1
          · exact absurd hx hcon
          · rfl
        have hvmem : g.1 ∈ detectExcluded st := by
          rw [show (detectExcluded st).contains g.1 = (detectExcluded st).elem g.1 from rfl]
            at hcon2
          exact (List.elem_iff).mp hcon2
        have := detectExcluded_mono cands1 st g.1 hvmem
        rw [show ((detectExcluded (confirm_detected cands1 st).1).contains g.1) =
          ((detectExcluded (confirm_detected cands1 st).1).elem g.1) from rfl,
          (List.elem_iff).mpr this] at hpred
        exact absurd hpred.1 (by simp)
      obtain ⟨o, ho, hrel⟩ := forall2_mem_left hfa g hg1
      cases o with
      | none => exact hrel
      | some sub =>
        exfalso
        have hsubc : sub ∈ cands1 := by
          rw [hc]
          refine ((sortBy_perm (fun a b : Subscription => decide (b.confidence ≤ a.confidence))
            (results.filterMap id)).mem_iff).mpr ?_
          exact List.mem_filterMap.mpr ⟨some sub, ho, rfl⟩
        have hpat := (detectGroup_some_facts today g.1 g.2 sub hrel).1
        have hvpats : g.1 ∈ cands1.map (·.matchPattern) := by
          rw [← hpat]
          exact List.mem_map_of_mem (·.matchPattern) hsubc
        have hcnt1 : countActiveSubs (confirm_detected cands1 st).1 g.1 = 1 := by
          rw [confirm_detected_count cands1 st g.1 hact]
          rw [if_pos ⟨hvpats, (hzero g.1 hvpats).1⟩]
        have hne : g.1 ≠ [] := (hzero g.1 hvpats).2
        have hget : g.1 ∈ get_all_match_patterns (confirm_detected cands1 st).1 :=
          mem_get_all_of_count _ g.1 hne (by rw [hcnt1]; exact one_ne_zero)
        have hexc : g.1 ∈ detectExcluded (confirm_detected cands1 st).1 :=
          List.mem_append.mpr (Or.inl hget)
        rw [show ((detectExcluded (confirm_detected cands1 st).1).contains g.1) =
          ((detectExcluded (confirm_detected cands1 st).1).elem g.1) from rfl,
          (List.elem_iff).mpr hexc] at hpred
        exact absurd hpred.1 (by simp)
    unfold detect_subscriptions
    rw [mapM_option_const _ none _ hkept2]
    have hnil : ((detectKept today months (confirm_detected cands1 st).1).map
        (fun _ => (none : Option Subscription))).filterMap id = [] := by
      rw [List.filterMap_eq_nil_iff]
      intro a ha
      rcases List.mem_map.mp ha with ⟨_, _, hx⟩
      rw [← hx]
      rfl
    show some (sortBy (fun a b => decide (b.confidence ≤ a.confidence))
      (((detectKept today months (confirm_detected cands1 st).1).map
        (fun _ => (none : Option Subscription))).filterMap id)) = some []
    rw [hnil]
    rfl


set_option maxRecDepth 100000 in
/-- Witness for claim C8 at a concrete store: the single vendor group has
median interval 1 (no bucket), so detection returns no candidates and the
pipeline is trivially idempotent on it. -/
theorem detect_confirm_idempotent_witness :
    (confirm_detected [] storeDetect).1.subs.length =
      storeDetect.subs.length + (confirm_detected [] storeDetect).2 ∧
    (∀ v : PyStr, v ∈ ([] : List Subscription).map (·.matchPattern) →
      countActiveSubs (confirm_detected [] storeDetect).1 v = 1 ∧
      countActiveSubs storeDetect v = 0) ∧
    (∀ v : PyStr, v ∉ ([] : List Subscription).map (·.matchPattern) →
      countActiveSubs (confirm_detected [] storeDetect).1 v = countActiveSubs storeDetect v) ∧
    detect_subscriptions ⟨2025, 5, 15⟩ 6 (confirm_detected [] storeDetect).1 = some [] ∧
    (confirm_detected [] (confirm_detected [] storeDetect).1).1 =
      (confirm_detected [] storeDetect).1 ∧
    (confirm_detected [] (confirm_detected [] storeDetect).1).2 = 0 :=
  detect_confirm_idempotent ⟨2025, 5, 15⟩ 6 storeDetect [] (by decide)

end CircuitCLI
